import Mathlib

/-!
Shallow embedding of `bugconf.py` (class `BugConf`): the option registry,
the config store with its default-origin set, `load` / `load_args` / `dump`,
`list_builds`, the `build` property setter, the path-expanding property
getters/setters, the argv construction of `reduce`, the ffpuppet keyword
construction of `repro`, and the argparse surface of `parse_args` / `main`.

Machine model conventions:
* Python values flowing through a loaded JSON document are modelled by
  `Value` (bool / int / str) and JSON `null` / Python `None` by `Option Value`
  (`none` = `None`).
* Exceptions are modelled by `Except PyErr`.  Mutation of `self` is explicit
  state passing; `loadRun` returns the partially-updated store together with
  the exception (if any) so that the post-exception state is observable, as
  it is on the mutable Python object.
* The filesystem and home directory (`os.path.expanduser`, `os.listdir`)
  are a read-only environment `FS`.
-/

/-- A (non-null) Python value as found in a parsed JSON config document. -/
inductive Value where
  | bool (b : Bool)
  | int (n : Int)
  | str (s : String)
deriving DecidableEq

/-- A JSON value / Python object reference: `none` is Python `None`. -/
abbrev JVal := Option Value

/-- The exceptions the embedded code can raise. -/
inductive PyErr where
  /-- `TypeError`, e.g. `os.path.expanduser(None)` or `"%d" % "x"`. -/
  | typeError
  /-- `FileNotFoundError` from `os.listdir` on a missing directory. -/
  | fileNotFound
  /-- `Exception("Unsupported config: %s" % cfg)` raised by `BugConf.load`. -/
  | unsupportedConfig (key : String)
  /-- `Exception("Build not found")` raised by the `build` setter. -/
  | buildNotFound
deriving DecidableEq

deriving instance DecidableEq for Except

/-- Python truthiness of an optional value (`if value:`). -/
def truthy : JVal → Bool
  | none => false
  | some (.bool b) => b
  | some (.int n) => n != 0
  | some (.str s) => s != ""

/-- Byte-wise (code-point) order on characters, as Python compares `str`. -/
def charLtNat (a b : Char) : Bool := a.toNat < b.toNat

/-- Lexicographic order on character lists (Python `str` comparison). -/
def strListLe : List Char → List Char → Bool
  | [], _ => true
  | _ :: _, [] => false
  | a :: as, b :: bs =>
    if charLtNat a b then true
    else if charLtNat b a then false
    else strListLe as bs

/-- Lexicographic `<=` on strings, as used by Python `sorted` / `sort_keys`. -/
def strLe (a b : String) : Bool := strListLe a.toList b.toList

/-- Insert an element into a sorted list (helper for `sortByB`). -/
def insertSorted (le : α → α → Bool) (x : α) : List α → List α
  | [] => [x]
  | y :: ys => if le x y then x :: y :: ys else y :: insertSorted le x ys

/-- Sorting by a boolean comparison; models Python `sorted` /
`json.dump(..., sort_keys=True)` (keys are unique, so stability is moot). -/
def sortByB (le : α → α → Bool) (l : List α) : List α := l.foldr (insertSorted le) []

/-- Read-only environment: the home directory (for `os.path.expanduser`)
and the directory listing function (for `os.listdir`, `none` = no such
directory, raising `FileNotFoundError`). -/
structure FS where
  home : String
  dirs : String → Option (List String)

/-- Strip trailing `/` characters (as `posixpath.expanduser` does on
`$HOME`), on the character list of a string. -/
def dropTrailingSlashes (l : List Char) : List Char :=
  (l.reverse.dropWhile (fun c => c == '/')).reverse

/-- Does the string start with `~`? -/
def startsTilde (s : String) : Bool :=
  match s.toList with
  | [] => false
  | c :: _ => c == '~'

/-- Strip trailing `/` characters from a string. -/
def rstripSlash (s : String) : String :=
  String.mk (dropTrailingSlashes s.toList)

/-- `os.path.expanduser` on the character list of a path (posix): a leading
bare `~` or `~/` component is replaced by `$HOME` (with trailing slashes
stripped, and `/` if the result would be empty — for `~/...` the suffix is
nonempty, so only the bare-`~` case needs that guard); a `~user` form is
returned unchanged (modelling the unknown-user fallback); anything else is
returned unchanged. -/
def expanduserL (home l : List Char) : List Char :=
  match l with
  | [] => []
  | c :: rest =>
    if c = '~' then
      match rest with
      | [] => if dropTrailingSlashes home = [] then ['/'] else dropTrailingSlashes home
      | r :: tl =>
        if r = '/' then dropTrailingSlashes home ++ r :: tl
        else c :: rest
    else c :: rest

/-- `os.path.expanduser` for a string argument. -/
def expanduser (fs : FS) (p : String) : String :=
  String.mk (expanduserL fs.home.toList p.toList)

/-- `os.path.expanduser(value)` as applied to a stored attribute: any
non-`str` argument (including `None`) raises `TypeError`. -/
def expandGet (fs : FS) : JVal → Except PyErr String
  | some (.str s) => .ok (expanduser fs s)
  | _ => .error .typeError

/-- The option registry's value types (`str` / `int` / `bool` in `_CONFIGS`). -/
inductive PyType where
  | bool
  | int
  | str
deriving DecidableEq

/-- The registered option names, in `BugConf._CONFIGS` order.
(`repeatN` stands for the source option named `repeat`, a reserved word here.) -/
inductive ConfigKey where
  | any_crash
  | build
  | buildpath
  | char
  | extension
  | extension_path
  | gdb
  | js
  | logfn
  | memory
  | min_crashes
  | no_harness
  | prefs
  | reduce_file
  | reducer
  | repeatN
  | safemode
  | sig
  | skip
  | strategy
  | symbol
  | timeout
  | valgrind
  | xvfb
deriving DecidableEq

/-- The option's name string, as it appears as a `_CONFIGS` key. -/
def keyName : ConfigKey → String
  | .any_crash => "any_crash"
  | .build => "build"
  | .buildpath => "buildpath"
  | .char => "char"
  | .extension => "extension"
  | .extension_path => "extension_path"
  | .gdb => "gdb"
  | .js => "js"
  | .logfn => "logfn"
  | .memory => "memory"
  | .min_crashes => "min_crashes"
  | .no_harness => "no_harness"
  | .prefs => "prefs"
  | .reduce_file => "reduce_file"
  | .reducer => "reducer"
  | .repeatN => "repeat"
  | .safemode => "safemode"
  | .sig => "sig"
  | .skip => "skip"
  | .strategy => "strategy"
  | .symbol => "symbol"
  | .timeout => "timeout"
  | .valgrind => "valgrind"
  | .xvfb => "xvfb"

/-- Iteration order of `BugConf._CONFIGS` (Python dict insertion order;
in the source this order happens to be alphabetical already). -/
def CONFIG_KEYS : List ConfigKey :=
  [.any_crash, .build, .buildpath, .char, .extension, .extension_path, .gdb, .js,
   .logfn, .memory, .min_crashes, .no_harness, .prefs, .reduce_file, .reducer,
   .repeatN, .safemode, .sig, .skip, .strategy, .symbol, .timeout, .valgrind, .xvfb]

/-- Membership test `cfg in BugConf._CONFIGS` (dict membership is by key
name), returning the matched registry key. -/
def parseKey (s : String) : Option ConfigKey :=
  CONFIG_KEYS.find? (fun ck => keyName ck == s)

/-- The short-flag column of `BugConf._CONFIGS`. -/
def shortFlag : ConfigKey → Option String
  | .any_crash => none
  | .build => some "b"
  | .buildpath => some "bp"
  | .char => some "c"
  | .extension => some "e"
  | .extension_path => none
  | .gdb => some "g"
  | .js => some "j"
  | .logfn => some "l"
  | .memory => some "m"
  | .min_crashes => some "n"
  | .no_harness => none
  | .prefs => some "p"
  | .reduce_file => some "rf"
  | .reducer => none
  | .repeatN => none
  | .safemode => none
  | .sig => none
  | .skip => none
  | .strategy => none
  | .symbol => none
  | .timeout => some "t"
  | .valgrind => none
  | .xvfb => none

/-- The type column of `BugConf._CONFIGS`. -/
def valueType : ConfigKey → PyType
  | .any_crash => .bool
  | .build => .str
  | .buildpath => .str
  | .char => .bool
  | .extension => .bool
  | .extension_path => .str
  | .gdb => .bool
  | .js => .bool
  | .logfn => .str
  | .memory => .int
  | .min_crashes => .int
  | .no_harness => .bool
  | .prefs => .str
  | .reduce_file => .str
  | .reducer => .str
  | .repeatN => .int
  | .safemode => .bool
  | .sig => .str
  | .skip => .int
  | .strategy => .str
  | .symbol => .bool
  | .timeout => .int
  | .valgrind => .bool
  | .xvfb => .bool

/-- The `BugConf` instance state: one attribute per option (plain attribute
for plain options, the underscored backing attribute for the ones with
property accessors), plus the `_defaults` name set.  All attributes start as
`None` in `__init__`; `repeatN` embeds the source attribute `repeat`. -/
structure BugConf where
  any_crash : JVal := none
  _build : JVal := none
  _buildpath : JVal := none
  char : JVal := none
  extension : JVal := none
  _extension_path : JVal := none
  gdb : JVal := none
  js : JVal := none
  _logfn : JVal := none
  memory : JVal := none
  min_crashes : JVal := none
  no_harness : JVal := none
  _prefs : JVal := none
  _reduce_file : JVal := none
  _reducer : JVal := none
  repeatN : JVal := none
  safemode : JVal := none
  sig : JVal := none
  skip : JVal := none
  strategy : JVal := none
  symbol : JVal := none
  timeout : JVal := none
  valgrind : JVal := none
  xvfb : JVal := none
  _defaults : List String := []
deriving DecidableEq

/-- The store as built by `BugConf.__init__` before the defaults files are
probed (every attribute `None`, `_defaults` empty);  this is also the state
of a fresh store when no defaults file exists. -/
def initConf : BugConf := {}

/-- `self._defaults.add(cfg)` (a Python `set`: adding keeps one occurrence). -/
def addKey (k : String) (l : List String) : List String :=
  if k ∈ l then l else k :: l

/-- `self._defaults.discard(cfg)`. -/
def discardKey (k : String) (l : List String) : List String :=
  l.filter (fun x => x != k)

/-- The raw stored attribute for an option (for plain options the attribute
itself; for property-backed options the underscored backing attribute). -/
def getRaw (st : BugConf) : ConfigKey → JVal
  | .any_crash => st.any_crash
  | .build => st._build
  | .buildpath => st._buildpath
  | .char => st.char
  | .extension => st.extension
  | .extension_path => st._extension_path
  | .gdb => st.gdb
  | .js => st.js
  | .logfn => st._logfn
  | .memory => st.memory
  | .min_crashes => st.min_crashes
  | .no_harness => st.no_harness
  | .prefs => st._prefs
  | .reduce_file => st._reduce_file
  | .reducer => st._reducer
  | .repeatN => st.repeatN
  | .safemode => st.safemode
  | .sig => st.sig
  | .skip => st.skip
  | .strategy => st.strategy
  | .symbol => st.symbol
  | .timeout => st.timeout
  | .valgrind => st.valgrind
  | .xvfb => st.xvfb

/-- `BugConf.list_builds`: `sorted(os.listdir(self.buildpath))` (the
`buildpath` getter expands `~`; a non-`str` or unset path raises). -/
def BugConf.list_builds (fs : FS) (st : BugConf) : Except PyErr (List String) := do
  let bp ← expandGet fs st._buildpath
  match fs.dirs bp with
  | none => .error .fileNotFound
  | some l => .ok (sortByB strLe l)

/-- `setattr(self, cfg, value)`: plain attribute assignment for plain
options; the property setters for `build` (validate against `list_builds`,
then store unchanged) and `reduce_file` (store the `~`-expanded value,
raising `TypeError` on a non-`str`); the remaining path options store the
raw value (their getters expand on read). -/
def setConfig (fs : FS) (st : BugConf) : ConfigKey → JVal → Except PyErr BugConf
  | .any_crash, v => .ok {st with any_crash := v}
  | .build, v => do
      let builds ← BugConf.list_builds fs st
      match v with
      | some (.str s) =>
          if s ∈ builds then .ok {st with _build := some (.str s)}
          else .error .buildNotFound
      | _ => .error .buildNotFound
  | .buildpath, v => .ok {st with _buildpath := v}
  | .char, v => .ok {st with char := v}
  | .extension, v => .ok {st with extension := v}
  | .extension_path, v => .ok {st with _extension_path := v}
  | .gdb, v => .ok {st with gdb := v}
  | .js, v => .ok {st with js := v}
  | .logfn, v => .ok {st with _logfn := v}
  | .memory, v => .ok {st with memory := v}
  | .min_crashes, v => .ok {st with min_crashes := v}
  | .no_harness, v => .ok {st with no_harness := v}
  | .prefs, v => .ok {st with _prefs := v}
  | .reduce_file, v =>
      match v with
      | some (.str s) => .ok {st with _reduce_file := some (.str (expanduser fs s))}
      | _ => .error .typeError
  | .reducer, v => .ok {st with _reducer := v}
  | .repeatN, v => .ok {st with repeatN := v}
  | .safemode, v => .ok {st with safemode := v}
  | .sig, v => .ok {st with sig := v}
  | .skip, v => .ok {st with skip := v}
  | .strategy, v => .ok {st with strategy := v}
  | .symbol, v => .ok {st with symbol := v}
  | .timeout, v => .ok {st with timeout := v}
  | .valgrind, v => .ok {st with valgrind := v}
  | .xvfb, v => .ok {st with xvfb := v}

/-- `getattr(self, cfg)`: plain attribute read for plain options; the
property getters for the path options apply `os.path.expanduser` to the
backing attribute unconditionally (raising `TypeError` when it is `None` or
not a `str`); `build` and `reduce_file` return their backing attribute. -/
def getConfig (fs : FS) (st : BugConf) : ConfigKey → Except PyErr JVal
  | .any_crash => .ok st.any_crash
  | .build => .ok st._build
  | .buildpath => (expandGet fs st._buildpath).map (fun s => some (.str s))
  | .char => .ok st.char
  | .extension => .ok st.extension
  | .extension_path => (expandGet fs st._extension_path).map (fun s => some (.str s))
  | .gdb => .ok st.gdb
  | .js => .ok st.js
  | .logfn => (expandGet fs st._logfn).map (fun s => some (.str s))
  | .memory => .ok st.memory
  | .min_crashes => .ok st.min_crashes
  | .no_harness => .ok st.no_harness
  | .prefs => (expandGet fs st._prefs).map (fun s => some (.str s))
  | .reduce_file => .ok st._reduce_file
  | .reducer => (expandGet fs st._reducer).map (fun s => some (.str s))
  | .repeatN => .ok st.repeatN
  | .safemode => .ok st.safemode
  | .sig => .ok st.sig
  | .skip => .ok st.skip
  | .strategy => .ok st.strategy
  | .symbol => .ok st.symbol
  | .timeout => .ok st.timeout
  | .valgrind => .ok st.valgrind
  | .xvfb => .ok st.xvfb

/-- `BugConf.load`, observing the partially-mutated store: iterate the parsed
document in order; an unregistered key raises `Unsupported config`; otherwise
assign via `setattr` and add the key to (`_defaults=True`) or discard it from
(`_defaults=False`) the `_defaults` set.  Returns the store as mutated so far
together with the raised exception, if any. -/
def loadRun (fs : FS) (st : BugConf) (dflt : Bool) :
    List (String × JVal) → BugConf × Option PyErr
  | [] => (st, none)
  | (k, v) :: rest =>
    match parseKey k with
    | none => (st, some (.unsupportedConfig k))
    | some ck =>
      match setConfig fs st ck v with
      | .error e => (st, some e)
      | .ok st' =>
        let st'' :=
          if dflt then {st' with _defaults := addKey k st'._defaults}
          else {st' with _defaults := discardKey k st'._defaults}
        loadRun fs st'' dflt rest

/-- `BugConf.load` as a partial function: the final store on success. -/
def BugConf.load (fs : FS) (st : BugConf) (dflt : Bool) (doc : List (String × JVal)) :
    Except PyErr BugConf :=
  match loadRun fs st dflt doc with
  | (st', none) => .ok st'
  | (_, some e) => .error e

/-- `BugConf.load_args`: iterate `vars(args)`; keys not in `_CONFIGS` or with
a `None` value are skipped silently; the rest are assigned via `setattr` and
discarded from `_defaults`.  Like `loadRun`, returns the store as mutated so
far with the raised exception (a `build` assignment can still raise). -/
def load_argsRun (fs : FS) (st : BugConf) :
    List (String × JVal) → BugConf × Option PyErr
  | [] => (st, none)
  | (k, v) :: rest =>
    match parseKey k, v with
    | some ck, some value =>
      match setConfig fs st ck (some value) with
      | .error e => (st, some e)
      | .ok st' => load_argsRun fs {st' with _defaults := discardKey k st'._defaults} rest
    | _, _ => load_argsRun fs st rest

/-- `BugConf.dump`, collection pass: `getattr` every registered option in
`_CONFIGS` order (so a raising getter aborts the dump), skipping values that
are `None` or whose key is in `_defaults`. -/
def dumpCollect (fs : FS) (st : BugConf) : List ConfigKey → Except PyErr (List (String × Value))
  | [] => .ok []
  | ck :: rest => do
    let v ← getConfig fs st ck
    let tail ← dumpCollect fs st rest
    match v with
    | none => .ok tail
    | some value =>
        if keyName ck ∈ st._defaults then .ok tail
        else .ok ((keyName ck, value) :: tail)

/-- `BugConf.dump`: the JSON object written by
`json.dump(obj, ..., sort_keys=True)`, as a key-sorted association list. -/
def BugConf.dump (fs : FS) (st : BugConf) : Except PyErr (List (String × Value)) :=
  (dumpCollect fs st CONFIG_KEYS).map (sortByB (fun a b => strLe a.1 b.1))

/-- `"%d" % value`: decimal formatting of an int (Python also accepts a bool,
formatting it as `1`/`0`); any other operand raises `TypeError`. -/
def formatD : JVal → Except PyErr String
  | some (.int n) => .ok (toString n)
  | some (.bool b) => .ok (if b then "1" else "0")
  | _ => .error .typeError

/-- One step of posix `os.path.join`: an absolute second component replaces
the accumulated path, otherwise a `/` separator is inserted unless already
present. -/
def osJoin (a b : String) : String :=
  if startsSlash b then b
  else if a = "" then b
  else if endsSlash a then a ++ b
  else a ++ "/" ++ b
where
  startsSlash (s : String) : Bool :=
    match s.toList with
    | '/' :: _ => true
    | _ => false
  endsSlash (s : String) : Bool :=
    match s.toList.reverse with
    | '/' :: _ => true
    | _ => false

/-- `os.path.join(self.buildpath, self.build, 'firefox')` given the already
expanded `buildpath`: joining a non-`str` (in particular `None`) raises
`TypeError`. -/
def joinFirefox (bp : String) (b : JVal) : Except PyErr String :=
  match b with
  | some (.str s) => .ok (osJoin (osJoin bp s) "firefox")
  | _ => .error .typeError

/-- `if self.char: cmd.append("--char")` — the `--char` tokens of `reduce`. -/
def charSeg (st : BugConf) : List Value :=
  if truthy st.char then [.str "--char"] else []

/-- The `--js` tokens of `reduce`. -/
def jsSeg (st : BugConf) : List Value :=
  if truthy st.js then [.str "--js"] else []

/-- `if self.strategy is not None: cmd.extend(["--strategy", self.strategy])`
— note the check is `is not None`, not truthiness. -/
def strategySeg (st : BugConf) : List Value :=
  match st.strategy with
  | none => []
  | some v => [.str "--strategy", v]

/-- The `--symbol` tokens of `reduce`. -/
def symbolSeg (st : BugConf) : List Value :=
  if truthy st.symbol then [.str "--symbol"] else []

/-- `if self.reduce_file is not None: cmd.extend(["--testcase",
self.reduce_file])` — again an `is not None` check. -/
def reduceFileSeg (st : BugConf) : List Value :=
  match st._reduce_file with
  | none => []
  | some v => [.str "--testcase", v]

/-- The `--xvfb` tokens of `reduce`. -/
def xvfbSeg (st : BugConf) : List Value :=
  if truthy st.xvfb then [.str "--xvfb"] else []

/-- The `--gdb` tokens of `reduce`. -/
def gdbSeg (st : BugConf) : List Value :=
  if truthy st.gdb then [.str "--gdb"] else []

/-- The `--valgrind` tokens of `reduce`. -/
def valgrindSeg (st : BugConf) : List Value :=
  if truthy st.valgrind then [.str "--valgrind"] else []

/-- The `--any-crash` tokens of `reduce`. -/
def anyCrashSeg (st : BugConf) : List Value :=
  if truthy st.any_crash then [.str "--any-crash"] else []

/-- `if self.min_crashes: cmd.extend(("--min-crashes", "%d" %
self.min_crashes))` — a truthiness check, then decimal formatting. -/
def minCrashesSeg (st : BugConf) : Except PyErr (List Value) :=
  if truthy st.min_crashes then do
    let s ← formatD st.min_crashes
    .ok [.str "--min-crashes", .str s]
  else .ok []

/-- The `--no-harness` tokens of `reduce`. -/
def noHarnessSeg (st : BugConf) : List Value :=
  if truthy st.no_harness then [.str "--no-harness"] else []

/-- `if self.repeat: cmd.extend(("--repeat", "%d" % self.repeat))`. -/
def repeatSeg (st : BugConf) : Except PyErr (List Value) :=
  if truthy st.repeatN then do
    let s ← formatD st.repeatN
    .ok [.str "--repeat", .str s]
  else .ok []

/-- `if self.sig: cmd.extend(("--sig", self.sig))` — truthiness check, the
raw value is appended. -/
def sigSeg (st : BugConf) : List Value :=
  if truthy st.sig then
    match st.sig with
    | some v => [.str "--sig", v]
    | none => []
  else []

/-- `if self.skip: cmd.extend(("--skip", "%d" % self.skip))`. -/
def skipSeg (st : BugConf) : Except PyErr (List Value) :=
  if truthy st.skip then do
    let s ← formatD st.skip
    .ok [.str "--skip", .str s]
  else .ok []

/-- `if verbose: cmd.append("-v")`. -/
def verboseSeg (vb : JVal) : List Value :=
  if truthy vb then [.str "-v"] else []

/-- The argv construction of `BugConf.reduce` (the part before
`subprocess.check_call`), as the list of Python objects appended to `cmd`.
The fallible steps — the `reducer`, `prefs` and `buildpath` property getters,
`os.path.join` with `self.build`, and the `"%d" %` formattings — are hoisted
in front of the pure token assembly; this preserves both the produced argv
and which exception is raised first, since the interleaved appends cannot
fail. -/
def reduceCmd (fs : FS) (st : BugConf) (testcase : Value) (verbose : JVal) :
    Except PyErr (List Value) := do
  let r ← expandGet fs st._reducer
  let p ← expandGet fs st._prefs
  let bp ← expandGet fs st._buildpath
  let ff ← joinFirefox bp st._build
  let mcs ← minCrashesSeg st
  let rps ← repeatSeg st
  let sks ← skipSeg st
  .ok ([Value.str "lithium"] ++ charSeg st ++ jsSeg st ++ strategySeg st ++ symbolSeg st
    ++ reduceFileSeg st ++ [Value.str r] ++ [Value.str "-p", Value.str p, Value.str ff]
    ++ xvfbSeg st ++ gdbSeg st ++ valgrindSeg st ++ anyCrashSeg st ++ mcs
    ++ noHarnessSeg st ++ rps ++ sigSeg st ++ sks ++ verboseSeg verbose ++ [testcase])

/-- Python `value * 1024 * 1024` (`int` multiplies; a `bool` is promoted to
`0`/`1`; a `str` is repeated). -/
def pyMulMB (v : Value) : Value :=
  match v with
  | .int n => .int (n * 1048576)
  | .bool b => .int (if b then 1048576 else 0)
  | .str s => .str (String.join (List.replicate 1048576 s))

/-- The keyword-argument construction of `BugConf.repro` for
`ffp.launch(...)`: `prefs_js` and `location` always; `safe_mode` iff
`safemode` is truthy; `extension` (the expanded `extension_path`) iff
`extension` is truthy; `memory_limit` (`memory * 1024 * 1024`) iff `memory`
is truthy. -/
def reproKwds (fs : FS) (st : BugConf) (testcase : Value) :
    Except PyErr (List (String × Value)) := do
  let p ← expandGet fs st._prefs
  let base := [("prefs_js", Value.str p), ("location", testcase)]
  let k1 := base ++ (if truthy st.safemode then [("safe_mode", Value.bool true)] else [])
  let k2 ← if truthy st.extension then do
      let ep ← expandGet fs st._extension_path
      .ok (k1 ++ [("extension", Value.str ep)])
    else .ok k1
  let k3 := k2 ++
    (match st.memory with
     | some m => if truthy (some m) then [("memory_limit", pyMulMB m)] else []
     | none => [])
  .ok k3

/-- The argparse actions relevant to `parse_args` (`count` is included so the
spec's claimed action is expressible; the source itself only ever uses
`store` and `store_true`). -/
inductive ArgAction where
  | store
  | storeTrue
  | count
deriving DecidableEq

/-- One `parser.add_argument` call. -/
structure ArgSpec where
  names : List String
  action : ArgAction
  typ : Option PyType
  positional : Bool
deriving DecidableEq

/-- `"--%s" % cfg.replace("_", "-")`. -/
def longFlag (ck : ConfigKey) : String :=
  "--" ++ String.mk ((keyName ck).toList.map (fun c => if c = '_' then '-' else c))

/-- The `add_argument` call generated for one registry entry: long flag plus
optional short alias; `store_true` for bool options, `store` with the
declared type otherwise. -/
def argSpecOf (ck : ConfigKey) : ArgSpec :=
  { names := [longFlag ck] ++
      (match shortFlag ck with
       | some s => ["-" ++ s]
       | none => []),
    action := match valueType ck with
      | .bool => .storeTrue
      | _ => .store,
    typ := match valueType ck with
      | .bool => none
      | t => some t,
    positional := false }

/-- `BugConf.parse_args`: one argument per registry entry, then the required
positional `testcase` for the `bcrepro`/`bcreduce` commands, then `--write`
and `--verbose` (both `store_true`). -/
def parse_args_specs (cmd : String) : List ArgSpec :=
  let testcase := cmd = "bcrepro" ∨ cmd = "bcreduce"
  CONFIG_KEYS.map argSpecOf
  ++ (if testcase then
        [{ names := ["testcase"], action := .store, typ := none, positional := true }]
      else [])
  ++ [{ names := ["--write", "-w"], action := .storeTrue, typ := none, positional := false }]
  ++ [{ names := ["--verbose", "-v"], action := .storeTrue, typ := none, positional := false }]

/-- The parsed value an argparse action with `default=None` produces from a
given number of occurrences of its flag on the command line (modelled from
the argparse library: `store_true` stores the constant `True` on each
occurrence; `count` increments, starting from 0 when the default is
`None`). -/
def actionResult : ArgAction → Nat → JVal
  | .storeTrue, n => if n > 0 then some (.bool true) else none
  | .count, n => if n > 0 then some (.int n) else none
  | .store, _ => none

/-- The effective root log level after `BugConf.main`'s prologue:
`logging.basicConfig(level=logging.INFO)` then `if args.verbose:
logging.getLogger().setLevel(logging.DEBUG)` (numeric levels as in the
logging module: DEBUG = 10, INFO = 20). -/
def mainLogLevel (verbose : JVal) : Nat :=
  if truthy verbose then 10 else 20

/-! ### Concrete fixtures used by witnesses and counterexamples -/

/-- A small filesystem: home `/home/u`, one build directory `/b` holding
two builds. -/
def fsW : FS :=
  { home := "/home/u",
    dirs := fun p => if p = "/b" then some ["z-build", "a-build"] else none }

/-- A defaults-file document. -/
def docDW : List (String × JVal) :=
  [("memory", some (.int 1)), ("xvfb", some (.bool true))]

/-- A project-file document overriding `memory`. -/
def docPW : List (String × JVal) := [("memory", some (.int 2))]

/-- The store after loading `docDW` as defaults into a fresh store. -/
def stW1 : BugConf :=
  { memory := some (.int 1), xvfb := some (.bool true), _defaults := ["xvfb", "memory"] }

/-- The store after then loading `docPW` as the project file. -/
def stW2 : BugConf :=
  { memory := some (.int 2), xvfb := some (.bool true), _defaults := ["xvfb"] }

/-- The association `dump` emits for one option, given the value `w` its
getter returned: nothing if `w` is `None` or the option is default-origin,
otherwise the (name, value) pair. -/
def dumpEntry (st : BugConf) (ck : ConfigKey) (w : JVal) : Option (String × Value) :=
  match w with
  | none => none
  | some v => if keyName ck ∈ st._defaults then none else some (keyName ck, v)

/-- The value `getattr(self, cfg)` returns when it does not raise
(helper for stating the dump theorems). -/
def getterVals (fs : FS) (st : BugConf) (ck : ConfigKey) : JVal :=
  match getConfig fs st ck with
  | .ok w => w
  | .error _ => none

/-- A store with every path option set, a build selected, one plain value
(`memory`) and one default-origin option (`xvfb`). -/
def stF : BugConf :=
  { _build := some (.str "a-build"), _buildpath := some (.str "/b"),
    _extension_path := some (.str "/e"), _logfn := some (.str "/l"),
    _prefs := some (.str "/p"), _reducer := some (.str "/r"),
    memory := some (.int 5), xvfb := some (.bool true), _defaults := ["xvfb"] }

/-- The document `dump` writes for `stF`. -/
def docF : List (String × Value) :=
  [("build", .str "a-build"), ("buildpath", .str "/b"), ("extension_path", .str "/e"),
   ("logfn", .str "/l"), ("memory", .int 5), ("prefs", .str "/p"), ("reducer", .str "/r")]

/-- `stF` with no build selected (so its dump omits `build`). -/
def stG : BugConf :=
  { _buildpath := some (.str "/b"), _extension_path := some (.str "/e"),
    _logfn := some (.str "/l"), _prefs := some (.str "/p"), _reducer := some (.str "/r"),
    memory := some (.int 5), xvfb := some (.bool true), _defaults := ["xvfb"] }

/-- The document `dump` writes for `stG`. -/
def docG : List (String × Value) :=
  [("buildpath", .str "/b"), ("extension_path", .str "/e"), ("logfn", .str "/l"),
   ("memory", .int 5), ("prefs", .str "/p"), ("reducer", .str "/r")]

/-- The store obtained by loading `docG` into a fresh store. -/
def stG' : BugConf :=
  { _buildpath := some (.str "/b"), _extension_path := some (.str "/e"),
    _logfn := some (.str "/l"), _prefs := some (.str "/p"), _reducer := some (.str "/r"),
    memory := some (.int 5) }

/-- The value tokens an integer option contributes to the reduce argv
(helper for stating the reduce theorems): `[flag, "%d" % n]` when the value
is a non-zero int, nothing when it is zero or `None`. -/
def intFlagTok (flag : String) (w : JVal) : List Value :=
  match w with
  | some (.int n) => if n != 0 then [.str flag, .str (toString n)] else []
  | _ => []

/-- A store ready for `reduce`: reducer, prefs, buildpath and build set. -/
def stR : BugConf :=
  { _reducer := some (.str "/r"), _prefs := some (.str "/p"),
    _buildpath := some (.str "/b"), _build := some (.str "a-build"),
    strategy := some (.str "") }

/-! ### General helper lemmas -/

theorem exceptBind_ok {ε α β : Type _} {x : Except ε α} {f : α → Except ε β} {b : β}
    (h : x >>= f = .ok b) : ∃ a, x = .ok a ∧ f a = .ok b := by
  cases x with
  | error e => simp [Bind.bind, Except.bind] at h
  | ok a => exact ⟨a, rfl, by simpa [Bind.bind, Except.bind] using h⟩

theorem exceptOk_bind {ε α β : Type _} {f : α → Except ε β} {a : α} :
    (Except.ok a : Except ε α) >>= f = f a := rfl

/-- First-match association-list lookup (Python dict access; keys are unique
in every dict we model, so first match is the only match). -/
def lookupKey {β : Type _} (k : String) : List (String × β) → Option β
  | [] => none
  | (k', v) :: rest => if k' = k then some v else lookupKey k rest

theorem lookupKey_eq_none {β : Type _} {k : String} :
    ∀ {l : List (String × β)}, k ∉ l.map Prod.fst → lookupKey k l = none
  | [], _ => rfl
  | (k', v) :: rest, h => by
    have h1 : k' ≠ k := fun hh => h (by simp [hh])
    have h2 : k ∉ rest.map Prod.fst := fun hh => h (by simp [hh])
    simp only [lookupKey, if_neg h1]
    exact lookupKey_eq_none h2

theorem mem_of_lookupKey {β : Type _} {k : String} {v : β} :
    ∀ {l : List (String × β)}, lookupKey k l = some v → (k, v) ∈ l
  | [], h => by simp [lookupKey] at h
  | (k', v') :: rest, h => by
    simp only [lookupKey] at h
    split at h
    · rename_i hk
      cases h
      subst hk
      exact List.mem_cons_self _ _
    · exact List.mem_cons_of_mem _ (mem_of_lookupKey h)

theorem lookupKey_of_mem {β : Type _} {k : String} {v : β} :
    ∀ {l : List (String × β)}, (l.map Prod.fst).Nodup → (k, v) ∈ l → lookupKey k l = some v
  | [], _, h => by simp at h
  | (k', v') :: rest, hnd, h => by
    simp only [List.map_cons, List.nodup_cons] at hnd
    rcases List.mem_cons.mp h with h | h
    · cases h
      simp [lookupKey]
    · have hk : k' ≠ k := by
        rintro rfl
        exact hnd.1 (List.mem_map.mpr ⟨(k', v), h, rfl⟩)
      simp only [lookupKey, if_neg hk]
      exact lookupKey_of_mem hnd.2 h

/-! ### Registry name lemmas -/

theorem parseKey_keyName (ck : ConfigKey) : parseKey (keyName ck) = some ck := by
  cases ck <;> decide

theorem keyName_of_parseKey {s : String} {ck : ConfigKey} (h : parseKey s = some ck) :
    keyName ck = s := by
  have := List.find?_some h
  exact eq_of_beq this

theorem keyName_inj {ck ck' : ConfigKey} (h : keyName ck = keyName ck') : ck = ck' := by
  have h1 := parseKey_keyName ck
  rw [h, parseKey_keyName] at h1
  exact (Option.some_inj.mp h1).symm

theorem mem_CONFIG_KEYS (ck : ConfigKey) : ck ∈ CONFIG_KEYS := by
  cases ck <;> decide

/-! ### Store-update lemmas -/

theorem getRaw_set_defaults (st : BugConf) (d : List String) (ck : ConfigKey) :
    getRaw {st with _defaults := d} ck = getRaw st ck := by
  cases ck <;> rfl

theorem mem_addKey {k k' : String} {l : List String} :
    k' ∈ addKey k l ↔ k' = k ∨ k' ∈ l := by
  by_cases hk : k ∈ l
  · simp only [addKey, if_pos hk]
    constructor
    · exact Or.inr
    · rintro (rfl | h)
      · exact hk
      · exact h
  · simp [addKey, if_neg hk]

theorem mem_discardKey {k k' : String} {l : List String} :
    k' ∈ discardKey k l ↔ k' ∈ l ∧ k' ≠ k := by
  simp [discardKey, List.mem_filter]

/-- What `setattr(self, cfg, value)` stores in the option's backing
attribute when it succeeds: the `~`-expanded string for `reduce_file`, the
value unchanged for every other option. -/
def storedOf (fs : FS) : ConfigKey → JVal → JVal
  | .reduce_file, some (.str s) => some (.str (expanduser fs s))
  | .reduce_file, v => v
  | _, v => v

/-- A successful `setattr` updates exactly the addressed option's backing
attribute (with `storedOf`) and leaves `_defaults` alone. -/
theorem setConfig_ok {fs : FS} {st : BugConf} {ck : ConfigKey} {v : JVal} {st' : BugConf}
    (h : setConfig fs st ck v = .ok st') :
    (∀ ck', getRaw st' ck' = if ck' = ck then storedOf fs ck v else getRaw st ck') ∧
    st'._defaults = st._defaults := by
  cases ck
  all_goals try
    (simp only [setConfig] at h
     injection h with h2
     subst h2
     exact ⟨fun ck' => by cases ck' <;> rfl, rfl⟩)
  case build =>
    simp only [setConfig] at h
    obtain ⟨builds, hb, h⟩ := exceptBind_ok h
    rcases v with _ | (b | n | s) <;> dsimp only at h
    · exact absurd h (by simp)
    · exact absurd h (by simp)
    · exact absurd h (by simp)
    · split at h
      · injection h with h2
        subst h2
        exact ⟨fun ck' => by cases ck' <;> rfl, rfl⟩
      · exact absurd h (by simp)
  case reduce_file =>
    simp only [setConfig] at h
    rcases v with _ | (b | n | s) <;> dsimp only at h
    · exact absurd h (by simp)
    · exact absurd h (by simp)
    · exact absurd h (by simp)
    · injection h with h2
      subst h2
      exact ⟨fun ck' => by cases ck' <;> rfl, rfl⟩

theorem getRaw_ite_defaults (c : Bool) (st₁ : BugConf) (d₁ d₂ : List String) (ck : ConfigKey) :
    getRaw (if c then {st₁ with _defaults := d₁} else {st₁ with _defaults := d₂}) ck =
      getRaw st₁ ck := by
  cases c
  · exact getRaw_set_defaults st₁ d₂ ck
  · exact getRaw_set_defaults st₁ d₁ ck

theorem defaults_ite (c : Bool) (st₁ : BugConf) (d₁ d₂ : List String) :
    (if c then {st₁ with _defaults := d₁} else {st₁ with _defaults := d₂})._defaults =
      if c then d₁ else d₂ := by
  cases c <;> rfl

/-- Characterization of a successful `load`: each registered key's backing
attribute ends at its (unique) document value as transformed by its setter,
untouched attributes are preserved, and `_defaults` gains (`as defaults`) or
loses (`not as defaults`) exactly the document's keys. -/
theorem loadRun_ok {fs : FS} {dflt : Bool} :
    ∀ {doc : List (String × JVal)} {st st' : BugConf},
      loadRun fs st dflt doc = (st', none) →
      (doc.map Prod.fst).Nodup →
      (∀ ck, getRaw st' ck =
        (match lookupKey (keyName ck) doc with
         | some v => storedOf fs ck v
         | none => getRaw st ck)) ∧
      (∀ k, k ∈ st'._defaults ↔
        (if dflt then k ∈ st._defaults ∨ k ∈ doc.map Prod.fst
         else k ∈ st._defaults ∧ k ∉ doc.map Prod.fst)) := by
  intro doc
  induction doc with
  | nil =>
    intro st st' h hnd
    simp only [loadRun] at h
    injection h with h1 h2
    subst h1
    refine ⟨fun ck => rfl, fun k => ?_⟩
    cases dflt <;> simp
  | cons p rest ih =>
    obtain ⟨k₀, v₀⟩ := p
    intro st st' h hnd
    simp only [loadRun] at h
    rcases hp : parseKey k₀ with _ | ck₀
    · rw [hp] at h
      injection h with h1 h2
      exact absurd h2.symm (by simp)
    · rw [hp] at h
      dsimp only at h
      rcases hs : setConfig fs st ck₀ v₀ with e | st₁
      · rw [hs] at h
        dsimp only at h
        injection h with h1 h2
        exact absurd h2.symm (by simp)
      · rw [hs] at h
        dsimp only at h
        simp only [List.map_cons, List.nodup_cons] at hnd
        obtain ⟨hk₀, hndr⟩ := hnd
        obtain ⟨ihv, ihd⟩ := ih h hndr
        obtain ⟨hsv, hsd⟩ := setConfig_ok hs
        have hname : keyName ck₀ = k₀ := keyName_of_parseKey hp
        constructor
        · intro ck
          by_cases hck : k₀ = keyName ck
          · have hcc : ck = ck₀ := by
              have h1 := parseKey_keyName ck
              rw [← hck, hp] at h1
              exact (Option.some_inj.mp h1).symm
            subst hcc
            have hrest : lookupKey (keyName ck) rest = none := by
              rw [← hck]
              exact lookupKey_eq_none hk₀
            simp only [lookupKey, if_pos hck]
            rw [ihv ck, hrest]
            dsimp only
            rw [getRaw_ite_defaults, hsv ck, if_pos rfl]
          · have hcons : lookupKey (keyName ck) ((k₀, v₀) :: rest) =
                lookupKey (keyName ck) rest := by
              simp only [lookupKey, if_neg hck]
            rw [hcons, ihv ck]
            rcases hlk : lookupKey (keyName ck) rest with _ | v
            · have hne : ck ≠ ck₀ := fun hcc => hck (by rw [hcc, hname])
              dsimp only
              rw [getRaw_ite_defaults, hsv ck, if_neg hne]
            · rfl
        · intro k
          rw [ihd k, defaults_ite]
          cases dflt
          · simp only [List.map_cons, List.mem_cons, mem_discardKey, hsd, Bool.false_eq_true,
              if_false]
            tauto
          · simp only [List.map_cons, List.mem_cons, mem_addKey, hsd, if_true]
            tauto

/-- Characterization of a successful `load_args`: registered keys with a
non-`None` parsed value are assigned and dropped from `_defaults`;
unregistered keys and `None` values change nothing (and raise nothing). -/
theorem load_argsRun_ok {fs : FS} :
    ∀ {ns : List (String × JVal)} {st st' : BugConf},
      load_argsRun fs st ns = (st', none) →
      (ns.map Prod.fst).Nodup →
      (∀ ck, getRaw st' ck =
        (match lookupKey (keyName ck) ns with
         | some (some v) => storedOf fs ck (some v)
         | _ => getRaw st ck)) ∧
      (∀ k, k ∈ st'._defaults ↔
        (k ∈ st._defaults ∧
          ¬ ∃ ck v, parseKey k = some ck ∧ lookupKey k ns = some (some v))) := by
  intro ns
  induction ns with
  | nil =>
    intro st st' h hnd
    simp only [load_argsRun] at h
    injection h with h1 h2
    subst h1
    refine ⟨fun ck => rfl, fun k => ?_⟩
    simp [lookupKey]
  | cons p rest ih =>
    obtain ⟨k₀, v₀⟩ := p
    intro st st' h hnd
    simp only [load_argsRun] at h
    simp only [List.map_cons, List.nodup_cons] at hnd
    obtain ⟨hk₀, hndr⟩ := hnd
    rcases hp : parseKey k₀ with _ | ck₀
    · rw [hp] at h
      dsimp only at h
      obtain ⟨ihv, ihd⟩ := ih h hndr
      have hck : ∀ ck : ConfigKey, k₀ ≠ keyName ck := by
        intro ck hcc
        rw [hcc, parseKey_keyName] at hp
        cases hp
      refine ⟨fun ck => ?_, fun k => ?_⟩
      · simp only [lookupKey, if_neg (hck ck)]
        exact ihv ck
      · rw [ihd k]
        by_cases hk : k₀ = k
        · subst hk
          have h1 : ∀ l : List (String × JVal),
              ¬ ∃ ck v, parseKey k₀ = some ck ∧ lookupKey k₀ l = some (some v) := by
            rintro l ⟨ck, v, hpk, -⟩
            rw [hp] at hpk
            cases hpk
          constructor
          · rintro ⟨hm, -⟩
            exact ⟨hm, h1 _⟩
          · rintro ⟨hm, -⟩
            exact ⟨hm, h1 _⟩
        · simp only [lookupKey, if_neg hk]
    · rcases v₀ with _ | w₀
      · rw [hp] at h
        dsimp only at h
        obtain ⟨ihv, ihd⟩ := ih h hndr
        refine ⟨fun ck => ?_, fun k => ?_⟩
        · by_cases hck : k₀ = keyName ck
          · have hrest : lookupKey (keyName ck) rest = none := by
              rw [← hck]
              exact lookupKey_eq_none hk₀
            have := ihv ck
            rw [hrest] at this
            simp only [lookupKey, if_pos hck]
            exact this
          · simp only [lookupKey, if_neg hck]
            exact ihv ck
        · rw [ihd k]
          by_cases hk : k₀ = k
          · subst hk
            have hrest : lookupKey k₀ rest = none := lookupKey_eq_none hk₀
            simp only [lookupKey, if_pos rfl, hrest]
            constructor
            · rintro ⟨hm, -⟩
              refine ⟨hm, ?_⟩
              rintro ⟨ck, v, -, hlk⟩
              cases hlk
            · rintro ⟨hm, -⟩
              refine ⟨hm, ?_⟩
              rintro ⟨ck, v, -, hlk⟩
              cases hlk
          · simp only [lookupKey, if_neg hk]
      · rw [hp] at h
        dsimp only at h
        rcases hs : setConfig fs st ck₀ (some w₀) with e | st₁
        · rw [hs] at h
          dsimp only at h
          injection h with h1 h2
          exact absurd h2.symm (by simp)
        · rw [hs] at h
          dsimp only at h
          obtain ⟨ihv, ihd⟩ := ih h hndr
          obtain ⟨hsv, hsd⟩ := setConfig_ok hs
          have hname : keyName ck₀ = k₀ := keyName_of_parseKey hp
          refine ⟨fun ck => ?_, fun k => ?_⟩
          · by_cases hck : k₀ = keyName ck
            · have hcc : ck = ck₀ := by
                have h1 := parseKey_keyName ck
                rw [← hck, hp] at h1
                exact (Option.some_inj.mp h1).symm
              subst hcc
              have hrest : lookupKey (keyName ck) rest = none := by
                rw [← hck]
                exact lookupKey_eq_none hk₀
              have := ihv ck
              rw [hrest] at this
              dsimp only at this
              simp only [lookupKey, if_pos hck]
              rw [this, getRaw_set_defaults, hsv ck, if_pos rfl]
            · have hne : ck ≠ ck₀ := fun hcc => hck (by rw [hcc, hname])
              simp only [lookupKey, if_neg hck]
              have := ihv ck
              rcases hlk : lookupKey (keyName ck) rest with _ | (_ | v)
              · rw [hlk] at this
                dsimp only at this
                rw [this, getRaw_set_defaults, hsv ck, if_neg hne]
              · rw [hlk] at this
                dsimp only at this
                rw [this, getRaw_set_defaults, hsv ck, if_neg hne]
              · rw [hlk] at this
                exact this
          · rw [ihd k]
            simp only [mem_discardKey, hsd]
            by_cases hk : k₀ = k
            · subst hk
              have happ : ∃ ck v, parseKey k₀ = some ck ∧
                  lookupKey k₀ ((k₀, some w₀) :: rest) = some (some v) := by
                refine ⟨ck₀, w₀, hp, ?_⟩
                simp [lookupKey]
              constructor
              · rintro ⟨⟨-, hne⟩, -⟩
                exact absurd rfl hne
              · rintro ⟨-, hna⟩
                exact absurd happ hna
            · have hcons : lookupKey k ((k₀, some w₀) :: rest) = lookupKey k rest := by
                simp only [lookupKey, if_neg hk]
              rw [hcons]
              constructor
              · rintro ⟨⟨hm, -⟩, hna⟩
                exact ⟨hm, hna⟩
              · rintro ⟨hm, hna⟩
                exact ⟨⟨hm, fun hh => hk hh.symm⟩, hna⟩

/-! ### Claim theorems -/

/-- C1: three-tier precedence.  Loading a defaults file into a fresh store,
then a project file, then CLI arguments (all successfully, documents with
unique keys as produced by JSON/argparse): (i) every option assigned in both
the defaults and the project document ends with the project document's value
(as stored by its setter: the identity for every option except
`reduce_file`, which stores the `~`-expanded string) and is not
default-origin; (ii) an option name is in the default-origin set iff its
last assignment came from the defaults layer, i.e. it was assigned by the
defaults document and not re-assigned by the project document or by an
applied CLI argument. -/
theorem c1_precedence_default_origin {fs : FS} {docD docP ns : List (String × JVal)}
    {st1 st2 st3 : BugConf}
    (hD : loadRun fs initConf true docD = (st1, none))
    (hP : loadRun fs st1 false docP = (st2, none))
    (hA : load_argsRun fs st2 ns = (st3, none))
    (hndD : (docD.map Prod.fst).Nodup) (hndP : (docP.map Prod.fst).Nodup)
    (hndA : (ns.map Prod.fst).Nodup) :
    (∀ ck vD vP, (keyName ck, vD) ∈ docD → (keyName ck, vP) ∈ docP →
      getRaw st2 ck = storedOf fs ck vP ∧ keyName ck ∉ st2._defaults) ∧
    (∀ k, k ∈ st3._defaults ↔
      (k ∈ docD.map Prod.fst ∧ k ∉ docP.map Prod.fst ∧
        ¬ ∃ ck v, parseKey k = some ck ∧ lookupKey k ns = some (some v))) := by
  obtain ⟨v1, d1⟩ := loadRun_ok hD hndD
  obtain ⟨v2, d2⟩ := loadRun_ok hP hndP
  obtain ⟨v3, d3⟩ := load_argsRun_ok hA hndA
  constructor
  · intro ck vD vP hmD hmP
    have hlkP : lookupKey (keyName ck) docP = some vP := lookupKey_of_mem hndP hmP
    have hkeyP : keyName ck ∈ docP.map Prod.fst :=
      List.mem_map.mpr ⟨(keyName ck, vP), hmP, rfl⟩
    constructor
    · have := v2 ck
      rw [hlkP] at this
      exact this
    · intro hmem
      exact ((d2 (keyName ck)).mp hmem).2 hkeyP
  · intro k
    have hd1 : k ∈ st1._defaults ↔ k ∈ List.map Prod.fst docD := by
      rw [d1 k]
      simp [initConf]
    have hd2 : k ∈ st2._defaults ↔ (k ∈ st1._defaults ∧ k ∉ List.map Prod.fst docP) := by
      rw [d2 k]
      simp
    rw [d3 k, hd2, hd1]
    tauto

/-- Witness for C1 at the concrete fixture: `memory` is set to 1 by the
defaults file and 2 by the project file; the resolved value is 2 and
`memory` is no longer default-origin, while `xvfb` (set only by the defaults
file) still is. -/
theorem c1_precedence_default_origin_witness :
    getRaw stW2 .memory = some (.int 2) ∧
    "memory" ∉ stW2._defaults ∧
    "xvfb" ∈ stW2._defaults := by
  obtain ⟨hv, hd⟩ :=
    @c1_precedence_default_origin fsW docDW docPW [] stW1 stW2 stW2
      (by decide) (by decide) (by decide) (by decide) (by decide) (by decide)
  obtain ⟨h1, h2⟩ := hv .memory (some (.int 1)) (some (.int 2)) (by decide) (by decide)
  refine ⟨h1.trans (by decide), h2, ?_⟩
  refine (hd "xvfb").mpr ⟨by decide, by decide, ?_⟩
  rintro ⟨ck, v, -, hlk⟩
  cases hlk

/-! ### expanduser and sorting lemmas -/

theorem expanduserL_ne_tilde {home : List Char} {c : Char} {rest : List Char} (h : c ≠ '~') :
    expanduserL home (c :: rest) = c :: rest := by
  simp [expanduserL, h]

theorem expanduserL_idem {home : List Char}
    (hh : ∀ tl, dropTrailingSlashes home ≠ '~' :: tl) :
    ∀ l, expanduserL home (expanduserL home l) = expanduserL home l := by
  intro l
  rcases l with _ | ⟨c, rest⟩
  · rfl
  by_cases hc : c = '~'
  · subst hc
    rcases rest with _ | ⟨r, tl⟩
    · by_cases hd : dropTrailingSlashes home = []
      · have h1 : expanduserL home ['~'] = ['/'] := by simp [expanduserL, hd]
        rw [h1]
        exact expanduserL_ne_tilde (by decide)
      · rcases he : dropTrailingSlashes home with _ | ⟨h₀, htl⟩
        · exact absurd he hd
        · have h₀ne : h₀ ≠ '~' := fun hcc => hh htl (by rw [he, hcc])
          have h1 : expanduserL home ['~'] = h₀ :: htl := by simp [expanduserL, hd, he]
          rw [h1]
          exact expanduserL_ne_tilde h₀ne
    · by_cases hr : r = '/'
      · subst hr
        rcases he : dropTrailingSlashes home with _ | ⟨h₀, htl⟩
        · have h1 : expanduserL home ('~' :: '/' :: tl) = '/' :: tl := by
            simp [expanduserL, he]
          rw [h1]
          exact expanduserL_ne_tilde (by decide)
        · have h₀ne : h₀ ≠ '~' := fun hcc => hh htl (by rw [he, hcc])
          have h1 : expanduserL home ('~' :: '/' :: tl) = h₀ :: (htl ++ '/' :: tl) := by
            simp [expanduserL, he]
          rw [h1]
          exact expanduserL_ne_tilde h₀ne
      · have h1 : expanduserL home ('~' :: r :: tl) = '~' :: r :: tl := by
          simp [expanduserL, hr]
        rw [h1]
        exact h1
  · have h1 : expanduserL home (c :: rest) = c :: rest := expanduserL_ne_tilde hc
    rw [h1]
    exact h1

/-- Provided the (slash-stripped) home directory does not itself start with
`~`, `os.path.expanduser` is idempotent. -/
theorem expanduser_idem {fs : FS} (hh : startsTilde (rstripSlash fs.home) = false)
    (p : String) : expanduser fs (expanduser fs p) = expanduser fs p := by
  have hlist : ∀ tl, dropTrailingSlashes fs.home.toList ≠ '~' :: tl := by
    intro tl he
    unfold startsTilde rstripSlash at hh
    rw [show (String.mk (dropTrailingSlashes fs.home.toList)).toList =
          dropTrailingSlashes fs.home.toList from rfl, he] at hh
    simp at hh
  exact congrArg String.mk (expanduserL_idem hlist p.toList)

theorem mem_insertSorted {le : α → α → Bool} {x a : α} :
    ∀ {l : List α}, a ∈ insertSorted le x l ↔ a = x ∨ a ∈ l
  | [] => by simp [insertSorted]
  | y :: ys => by
    simp only [insertSorted]
    split
    · simp [List.mem_cons]
    · rw [List.mem_cons, List.mem_cons, mem_insertSorted]
      tauto

theorem mem_sortByB {le : α → α → Bool} {a : α} :
    ∀ {l : List α}, a ∈ sortByB le l ↔ a ∈ l
  | [] => Iff.rfl
  | x :: xs => by
    show a ∈ insertSorted le x (sortByB le xs) ↔ _
    rw [mem_insertSorted, mem_sortByB, List.mem_cons]

/-- Sorting a list that is already sorted is the identity. -/
theorem sortByB_of_pairwise {le : α → α → Bool} :
    ∀ {l : List α}, l.Pairwise (fun a b => le a b = true) → sortByB le l = l
  | [], _ => rfl
  | x :: xs, h => by
    obtain ⟨hx, hxs⟩ := List.pairwise_cons.mp h
    show insertSorted le x (sortByB le xs) = x :: xs
    rw [sortByB_of_pairwise hxs]
    cases xs with
    | nil => rfl
    | cons y ys => simp [insertSorted, hx y (List.mem_cons_self y ys)]

theorem pairwise_filterMap_of {α β : Type _} {R : α → α → Prop} {S : β → β → Prop}
    (f : α → Option β)
    (hf : ∀ a a' b b', R a a' → f a = some b → f a' = some b' → S b b') :
    ∀ {l : List α}, l.Pairwise R → (l.filterMap f).Pairwise S := by
  intro l
  induction l with
  | nil => intro; simp
  | cons x xs ih =>
    intro h
    obtain ⟨hx, hxs⟩ := List.pairwise_cons.mp h
    rcases hfx : f x with _ | b
    · rw [List.filterMap_cons_none hfx]
      exact ih hxs
    · rw [List.filterMap_cons_some hfx]
      refine List.pairwise_cons.mpr ⟨?_, ih hxs⟩
      intro b' hb'
      obtain ⟨a', ha', hfa'⟩ := List.mem_filterMap.mp hb'
      exact hf x a' b b' (hx a' ha') hfx hfa'

/-! ### C10, C5, C4 -/

/-- C10: reading any of the five path-like options through its property
getter while the backing attribute is `None` raises `TypeError` (the getter
applies `os.path.expanduser` unconditionally), whereas the `reduce_file`
getter returns `None` unchanged when unset. -/
theorem c10_unset_path_getters_raise (fs : FS) (st : BugConf) :
    (st._buildpath = none → getConfig fs st .buildpath = .error .typeError) ∧
    (st._extension_path = none → getConfig fs st .extension_path = .error .typeError) ∧
    (st._logfn = none → getConfig fs st .logfn = .error .typeError) ∧
    (st._prefs = none → getConfig fs st .prefs = .error .typeError) ∧
    (st._reducer = none → getConfig fs st .reducer = .error .typeError) ∧
    (st._reduce_file = none → getConfig fs st .reduce_file = .ok none) := by
  refine ⟨fun h => ?_, fun h => ?_, fun h => ?_, fun h => ?_, fun h => ?_, fun h => ?_⟩ <;>
    simp [getConfig, h, expandGet, Except.map]

/-- Witness for C10 at the freshly-initialized store. -/
theorem c10_unset_path_getters_raise_witness :
    getConfig fsW initConf .buildpath = .error .typeError ∧
    getConfig fsW initConf .extension_path = .error .typeError ∧
    getConfig fsW initConf .logfn = .error .typeError ∧
    getConfig fsW initConf .prefs = .error .typeError ∧
    getConfig fsW initConf .reducer = .error .typeError ∧
    getConfig fsW initConf .reduce_file = .ok none := by
  obtain ⟨h1, h2, h3, h4, h5, h6⟩ := c10_unset_path_getters_raise fsW initConf
  exact ⟨h1 rfl, h2 rfl, h3 rfl, h4 rfl, h5 rfl, h6 rfl⟩

/-- C5: `build` is validated at assignment time against `list_builds()`:
assigning a name that is not in the build directory's listing raises
`Build not found` and leaves the store unchanged (shown via the unchanged
result store of a single-key `load`); assigning a listed name succeeds,
stores the name unchanged, and the `build` getter returns it. -/
theorem c5_build_validation {fs : FS} {st : BugConf} {bp name : String} {l : List String}
    (hbp : st._buildpath = some (.str bp))
    (hl : fs.dirs (expanduser fs bp) = some l) :
    (name ∉ l →
      setConfig fs st .build (some (.str name)) = .error .buildNotFound ∧
      loadRun fs st false [("build", some (.str name))] = (st, some .buildNotFound)) ∧
    (name ∈ l →
      setConfig fs st .build (some (.str name)) = .ok {st with _build := some (.str name)} ∧
      getConfig fs {st with _build := some (.str name)} .build = .ok (some (.str name))) := by
  have hlb : BugConf.list_builds fs st = .ok (sortByB strLe l) := by
    simp [BugConf.list_builds, hbp, expandGet, exceptOk_bind, hl]
  have hpb : parseKey "build" = some ConfigKey.build := by decide
  constructor
  · intro hnm
    have hset : setConfig fs st .build (some (.str name)) = .error .buildNotFound := by
      simp only [setConfig, hlb, exceptOk_bind]
      rw [if_neg (fun hmm => hnm (mem_sortByB.mp hmm))]
    refine ⟨hset, ?_⟩
    simp only [loadRun, hpb]
    rw [hset]
  · intro hnm
    have hset : setConfig fs st .build (some (.str name)) =
        .ok {st with _build := some (.str name)} := by
      simp only [setConfig, hlb, exceptOk_bind]
      rw [if_pos (mem_sortByB.mpr hnm)]
    exact ⟨hset, rfl⟩

/-- Witness for C5: `/b` holds builds `a-build` and `z-build`; assigning
`nope` fails leaving the store unchanged, assigning `a-build` succeeds and
reads back unchanged. -/
theorem c5_build_validation_witness :
    (setConfig fsW { _buildpath := some (.str "/b") } .build (some (.str "nope")) =
      .error .buildNotFound ∧
     loadRun fsW { _buildpath := some (.str "/b") } false [("build", some (.str "nope"))] =
      ({ _buildpath := some (.str "/b") }, some .buildNotFound)) ∧
    (setConfig fsW { _buildpath := some (.str "/b") } .build (some (.str "a-build")) =
      .ok { _buildpath := some (.str "/b"), _build := some (.str "a-build") } ∧
     getConfig fsW { _buildpath := some (.str "/b"), _build := some (.str "a-build") } .build =
      .ok (some (.str "a-build"))) := by
  obtain ⟨hbad, hgood⟩ :=
    @c5_build_validation fsW { _buildpath := some (.str "/b") } "/b" "nope"
      ["z-build", "a-build"] rfl (by decide)
  obtain ⟨hbad2, hgood2⟩ :=
    @c5_build_validation fsW { _buildpath := some (.str "/b") } "/b" "a-build"
      ["z-build", "a-build"] rfl (by decide)
  obtain ⟨h1, h2⟩ := hbad (by decide)
  obtain ⟨h3, h4⟩ := hgood2 (by decide)
  exact ⟨⟨h1, h2⟩, ⟨h3, h4⟩⟩

/-- Any document containing an unregistered key makes `load` raise. -/
theorem loadRun_fails {fs : FS} {dflt : Bool} :
    ∀ {doc : List (String × JVal)}, (∃ p ∈ doc, parseKey p.1 = none) →
      ∀ st₀ : BugConf, (loadRun fs st₀ dflt doc).2 ≠ none := by
  intro doc
  induction doc with
  | nil => rintro ⟨p, hp, -⟩ st₀; simp at hp
  | cons q rest ih =>
    obtain ⟨k₀, v₀⟩ := q
    rintro ⟨p, hp, hbad⟩ st₀
    rcases hk : parseKey k₀ with _ | ck₀
    · simp [loadRun, hk]
    · rcases List.mem_cons.mp hp with rfl | hmem
      · rw [hk] at hbad
        cases hbad
      · simp only [loadRun, hk]
        rcases hs : setConfig fs st₀ ck₀ v₀ with e | st₁
        · simp
        · exact ih ⟨p, hmem, hbad⟩ _

/-- C4 (amended): `load` of a document containing an unregistered key always
fails, but it is not atomic: the keys preceding the first offending key are
applied, so the store is left partially updated — it equals its prior state
only when the offending key comes first. -/
theorem c4_unknown_key_rejection_amended {fs : FS} {dflt : Bool}
    {pre post : List (String × JVal)} {k : String} {v : JVal} {st st₁ : BugConf}
    (hk : parseKey k = none)
    (hpre : loadRun fs st dflt pre = (st₁, none)) :
    loadRun fs st dflt (pre ++ (k, v) :: post) = (st₁, some (.unsupportedConfig k)) ∧
    (∀ (doc : List (String × JVal)), (∃ p ∈ doc, parseKey p.1 = none) →
      ∀ st₀ : BugConf, (loadRun fs st₀ dflt doc).2 ≠ none) := by
  refine ⟨?_, fun doc => loadRun_fails⟩
  induction pre generalizing st with
  | nil =>
    simp only [loadRun] at hpre
    injection hpre with h1 h2
    subst h1
    simp [loadRun, hk]
  | cons q rest ih =>
    obtain ⟨k₀, v₀⟩ := q
    simp only [loadRun] at hpre ⊢
    rcases hp : parseKey k₀ with _ | ck₀
    · rw [hp] at hpre
      dsimp only at hpre
      injection hpre with h1 h2
      exact absurd h2.symm (by simp)
    · rw [hp] at hpre
      dsimp only at hpre ⊢
      rcases hs : setConfig fs st ck₀ v₀ with e | stx
      · rw [hs] at hpre
        dsimp only at hpre
        injection hpre with h1 h2
        exact absurd h2.symm (by simp)
      · rw [hs] at hpre
        dsimp only at hpre ⊢
        exact ih hpre

/-- Counterexample to C4 as stated: loading `{"memory": 5, "bogus": 1}` into
a fresh store raises the unsupported-option error, but the store afterwards
has `memory = 5`: the prior state is not restored. -/
theorem c4_unknown_key_rejection_counterexample :
    loadRun fsW initConf false [("memory", some (.int 5)), ("bogus", some (.int 1))] =
      ({initConf with memory := some (.int 5)}, some (.unsupportedConfig "bogus")) ∧
    ({initConf with memory := some (.int 5)} : BugConf) ≠ initConf := by
  decide

/-- Witness for the amended C4 at a concrete document. -/
theorem c4_unknown_key_rejection_amended_witness :
    loadRun fsW initConf false
        ([("memory", some (.int 5))] ++ ("bogus", some (.int 1)) :: [("skip", some (.int 2))]) =
      ({initConf with memory := some (.int 5)}, some (.unsupportedConfig "bogus")) := by
  have h := @c4_unknown_key_rejection_amended fsW false
    [("memory", some (.int 5))] [("skip", some (.int 2))] "bogus" (some (.int 1))
    initConf {initConf with memory := some (.int 5)} (by decide) (by decide)
  exact h.1

/-- C8 (amended): `load_args` assigns every registered key whose parsed
value is non-`None` through the same setter as `load` and removes it from
the default-origin set; keys with a `None` value change nothing; and — in
contrast to `load` — a key absent from the registry is skipped silently
rather than raising. -/
theorem c8_load_args_semantics {fs : FS} {ns : List (String × JVal)} {st st' : BugConf}
    (h : load_argsRun fs st ns = (st', none))
    (hnd : (ns.map Prod.fst).Nodup) :
    (∀ ck, getRaw st' ck =
      (match lookupKey (keyName ck) ns with
       | some (some v) => storedOf fs ck (some v)
       | _ => getRaw st ck)) ∧
    (∀ k, k ∈ st'._defaults ↔
      (k ∈ st._defaults ∧
        ¬ ∃ ck v, parseKey k = some ck ∧ lookupKey k ns = some (some v))) ∧
    (∀ (k : String) (v : JVal) (rest : List (String × JVal)) (st₀ : BugConf),
      parseKey k = none →
      load_argsRun fs st₀ ((k, v) :: rest) = load_argsRun fs st₀ rest) := by
  obtain ⟨hv, hd⟩ := load_argsRun_ok h hnd
  refine ⟨hv, hd, fun k v rest st₀ hk => ?_⟩
  simp [load_argsRun, hk]

/-- Counterexample to C8 as stated: the parsed-argument keys `write` (value
`True`) and `verbose` are not registered options, yet `load_args` neither
fails nor changes the store — unregistered keys are silently ignored,
while `load` does fail on the same key. -/
theorem c8_load_args_counterexample :
    load_argsRun fsW initConf [("write", some (.bool true)), ("verbose", none)] =
      (initConf, none) ∧
    (loadRun fsW initConf false [("write", some (.bool true))]).2 =
      some (.unsupportedConfig "write") := by
  decide

/-- Witness for the amended C8: `memory` was default-origin and is
overridden by a CLI value of 7; `write` is skipped; afterwards `memory`
holds 7 and is no longer default-origin. -/
theorem c8_load_args_semantics_witness :
    getRaw ({initConf with memory := some (.int 7)}) .memory = some (.int 7) ∧
    "memory" ∉ ({initConf with memory := some (.int 7)} : BugConf)._defaults := by
  obtain ⟨hv, hd, hskip⟩ :=
    @c8_load_args_semantics fsW
      [("write", some (.bool true)), ("memory", some (.int 7)), ("verbose", none)]
      {initConf with _defaults := ["memory"]} {initConf with memory := some (.int 7)}
      (by decide) (by decide)
  refine ⟨(hv .memory).trans (by decide), ?_⟩
  intro hmem
  obtain ⟨-, hna⟩ := (hd "memory").mp hmem
  exact hna ⟨.memory, .int 7, by decide, by decide⟩

/-! ### Dump lemmas and C2 -/

theorem getRaw_initConf (ck : ConfigKey) : getRaw initConf ck = none := by
  cases ck <;> rfl

theorem dumpEntry_some {st : BugConf} {ck : ConfigKey} {w : JVal} {p : String × Value}
    (h : dumpEntry st ck w = some p) :
    p.1 = keyName ck ∧ w = some p.2 ∧ keyName ck ∉ st._defaults := by
  rcases w with _ | v
  · cases h
  · simp only [dumpEntry] at h
    split at h
    · cases h
    · cases h
      rename_i hne
      exact ⟨rfl, rfl, hne⟩

theorem dumpCollect_eq {fs : FS} {st : BugConf} {g : ConfigKey → JVal}
    (hg : ∀ ck, getConfig fs st ck = .ok (g ck)) :
    ∀ keys : List ConfigKey,
      dumpCollect fs st keys = .ok (keys.filterMap (fun ck => dumpEntry st ck (g ck))) := by
  intro keys
  induction keys with
  | nil => rfl
  | cons ck rest ih =>
    rcases hgc : g ck with _ | v
    · have hgck := hg ck
      rw [hgc] at hgck
      simp [dumpCollect, hgck, exceptOk_bind, ih, hgc, dumpEntry]
    · have hgck := hg ck
      rw [hgc] at hgck
      by_cases hmem : keyName ck ∈ st._defaults
      · simp [dumpCollect, hgck, exceptOk_bind, ih, hgc, dumpEntry, hmem]
      · simp [dumpCollect, hgck, exceptOk_bind, ih, hgc, dumpEntry, hmem]

theorem CONFIG_KEYS_names_sorted :
    CONFIG_KEYS.Pairwise (fun a b => strLe (keyName a) (keyName b) = true) := by decide

theorem CONFIG_KEYS_nodup : CONFIG_KEYS.Pairwise (fun a b => a ≠ b) := by decide

theorem getterVals_ok (fs : FS) {st : BugConf} {bp ep lf pf rd : String}
    (h1 : st._buildpath = some (.str bp)) (h2 : st._extension_path = some (.str ep))
    (h3 : st._logfn = some (.str lf)) (h4 : st._prefs = some (.str pf))
    (h5 : st._reducer = some (.str rd)) :
    ∀ ck, getConfig fs st ck = .ok (getterVals fs st ck) := by
  intro ck
  cases ck <;> simp [getConfig, getterVals, h1, h2, h3, h4, h5, expandGet, Except.map]

/-- C2 (amended): when the five expanding path options are all set (so that
no getter raises), `dump` succeeds, its keys are lexicographically sorted,
and it contains exactly the pairs `(name, v)` for options that are not
default-origin and whose getter returns the non-null `v` (path values are
therefore serialized in `~`-expanded form); every default-origin option is
omitted.  (When some expanding path option is unset, `dump` raises instead
— see the counterexample.) -/
theorem c2_dump_serialization {fs : FS} {st : BugConf} {bp ep lf pf rd : String}
    (h1 : st._buildpath = some (.str bp)) (h2 : st._extension_path = some (.str ep))
    (h3 : st._logfn = some (.str lf)) (h4 : st._prefs = some (.str pf))
    (h5 : st._reducer = some (.str rd)) :
    ∃ l, BugConf.dump fs st = .ok l ∧
      l.Pairwise (fun a b => strLe a.1 b.1 = true) ∧
      (∀ ck v, ((keyName ck, v) ∈ l ↔
        (keyName ck ∉ st._defaults ∧ getConfig fs st ck = .ok (some v)))) ∧
      (∀ ck, keyName ck ∈ st._defaults → ∀ v, (keyName ck, v) ∉ l) := by
  have hg := getterVals_ok fs h1 h2 h3 h4 h5
  have hcollect := dumpCollect_eq hg CONFIG_KEYS
  have hpair : (CONFIG_KEYS.filterMap
      (fun ck => dumpEntry st ck (getterVals fs st ck))).Pairwise
      (fun a b => strLe a.1 b.1 = true) := by
    refine pairwise_filterMap_of _ ?_ CONFIG_KEYS_names_sorted
    intro a a' b b' hR hfa hfa'
    obtain ⟨hb1, -, -⟩ := dumpEntry_some hfa
    obtain ⟨hb1', -, -⟩ := dumpEntry_some hfa'
    rw [hb1, hb1']
    exact hR
  refine ⟨CONFIG_KEYS.filterMap (fun ck => dumpEntry st ck (getterVals fs st ck)),
    ?_, hpair, ?_, ?_⟩
  · rw [BugConf.dump, hcollect]
    rw [show ∀ x : List (String × Value),
        Except.map (sortByB (fun a b => strLe a.1 b.1)) (Except.ok x : Except PyErr _) =
          .ok (sortByB (fun a b => strLe a.1 b.1) x) from fun x => rfl]
    rw [sortByB_of_pairwise hpair]
  · intro ck v
    constructor
    · intro hmem
      obtain ⟨a, ha, hfa⟩ := List.mem_filterMap.mp hmem
      obtain ⟨hb1, hb2, hb3⟩ := dumpEntry_some hfa
      have hak : a = ck := keyName_inj (hb1.symm)
      subst hak
      refine ⟨hb3, ?_⟩
      rw [hg a, ← hb2]
    · rintro ⟨hnd, hget⟩
      have hgv : getterVals fs st ck = some v := by
        have hcomb := (hg ck).symm.trans hget
        injection hcomb with hh
      refine List.mem_filterMap.mpr ⟨ck, mem_CONFIG_KEYS ck, ?_⟩
      rw [hgv]
      simp [dumpEntry, hnd]
  · intro ck hmem v hin
    obtain ⟨a, ha, hfa⟩ := List.mem_filterMap.mp hin
    obtain ⟨hb1, -, hb3⟩ := dumpEntry_some hfa
    have hak : a = ck := keyName_inj (hb1.symm)
    subst hak
    exact hb3 hmem

/-- Counterexample to C2 as stated: a fresh store with only `memory = 5`
set has a non-null, non-default option, yet `dump` does not serialize it —
the `buildpath` getter raises `TypeError` first, because `dump` reads every
registered option through its getter. -/
theorem c2_dump_counterexample :
    BugConf.dump fsW {initConf with memory := some (.int 5)} = .error .typeError ∧
    ({initConf with memory := some (.int 5)} : BugConf).memory = some (.int 5) ∧
    "memory" ∉ ({initConf with memory := some (.int 5)} : BugConf)._defaults := by
  decide

/-- Witness for the amended C2 at `stF`: the dump contains `memory` (plain,
non-default) and `build`, and omits the default-origin `xvfb`. -/
theorem c2_dump_serialization_witness :
    ("memory", Value.int 5) ∈ docF ∧
    ("build", Value.str "a-build") ∈ docF ∧
    (∀ v, ("xvfb", v) ∉ docF) := by
  obtain ⟨l, hdump, -, hiff, homit⟩ :=
    @c2_dump_serialization fsW stF "/b" "/e" "/l" "/p" "/r" rfl rfl rfl rfl rfl
  have hconc : BugConf.dump fsW stF = .ok docF := by decide
  rw [hconc] at hdump
  injection hdump with hl
  subst hl
  refine ⟨(hiff .memory (.int 5)).mpr ⟨by decide, by decide⟩,
    (hiff .build (.str "a-build")).mpr ⟨by decide, by decide⟩,
    fun v => homit .xvfb (by decide) v⟩

/-! ### Round-trip lemmas and C3 -/

theorem dump_filterMap_pairwise {st : BugConf} {g : ConfigKey → JVal} :
    (CONFIG_KEYS.filterMap (fun ck => dumpEntry st ck (g ck))).Pairwise
      (fun a b => strLe a.1 b.1 = true) := by
  refine pairwise_filterMap_of _ ?_ CONFIG_KEYS_names_sorted
  intro a a' b b' hR hfa hfa'
  obtain ⟨hb1, -, -⟩ := dumpEntry_some hfa
  obtain ⟨hb1', -, -⟩ := dumpEntry_some hfa'
  rw [hb1, hb1']
  exact hR

theorem dump_eq_filterMap {fs : FS} {st : BugConf} {g : ConfigKey → JVal}
    (hg : ∀ ck, getConfig fs st ck = .ok (g ck)) :
    BugConf.dump fs st = .ok (CONFIG_KEYS.filterMap (fun ck => dumpEntry st ck (g ck))) := by
  rw [BugConf.dump, dumpCollect_eq hg CONFIG_KEYS]
  rw [show ∀ x : List (String × Value),
      Except.map (sortByB (fun a b => strLe a.1 b.1)) (Except.ok x : Except PyErr _) =
        .ok (sortByB (fun a b => strLe a.1 b.1) x) from fun x => rfl]
  rw [sortByB_of_pairwise dump_filterMap_pairwise]

theorem dump_keys_nodup {st : BugConf} {g : ConfigKey → JVal} :
    ((CONFIG_KEYS.filterMap (fun ck => dumpEntry st ck (g ck))).map Prod.fst).Nodup := by
  have hpair : (CONFIG_KEYS.filterMap (fun ck => dumpEntry st ck (g ck))).Pairwise
      (fun a b => a.1 ≠ b.1) := by
    refine pairwise_filterMap_of _ ?_ CONFIG_KEYS_nodup
    intro a a' b b' hR hfa hfa'
    obtain ⟨hb1, -, -⟩ := dumpEntry_some hfa
    obtain ⟨hb1', -, -⟩ := dumpEntry_some hfa'
    rw [hb1, hb1']
    exact fun hcc => hR (keyName_inj hcc)
  exact List.pairwise_map.mpr hpair

theorem setConfig_total {fs : FS} {st : BugConf} {ck : ConfigKey} {v : JVal}
    (hnb : ck ≠ .build)
    (hrf : ck = .reduce_file → ∃ s, v = some (.str s)) :
    ∃ st₁, setConfig fs st ck v = .ok st₁ := by
  cases ck
  all_goals try exact ⟨_, rfl⟩
  · exact absurd rfl hnb
  · obtain ⟨s, rfl⟩ := hrf rfl
    exact ⟨_, rfl⟩

theorem loadRun_total {fs : FS} {dflt : Bool} :
    ∀ {doc : List (String × JVal)} (st : BugConf),
      (∀ p ∈ doc, ∃ ck, parseKey p.1 = some ck ∧ ck ≠ .build ∧
        (ck = .reduce_file → ∃ s, p.2 = some (.str s))) →
      ∃ st', loadRun fs st dflt doc = (st', none) := by
  intro doc
  induction doc with
  | nil => exact fun st _ => ⟨st, rfl⟩
  | cons p rest ih =>
    obtain ⟨k₀, v₀⟩ := p
    intro st hp
    obtain ⟨ck₀, hpk, hnb, hrf⟩ := hp (k₀, v₀) (List.mem_cons_self _ _)
    obtain ⟨st₁, hs⟩ := @setConfig_total fs st ck₀ v₀ hnb hrf
    simp only [loadRun]
    rw [hpk]
    dsimp only
    rw [hs]
    dsimp only
    exact ih _ (fun q hq => hp q (List.mem_cons_of_mem _ hq))

theorem lookupKey_map_pair {k : String} :
    ∀ {l : List (String × Value)},
      lookupKey k (l.map (fun p => (p.1, (some p.2 : JVal)))) = (lookupKey k l).map some
  | [] => rfl
  | (k', v') :: rest => by
    by_cases hk : k' = k
    · simp [lookupKey, hk]
    · simp [lookupKey, hk, lookupKey_map_pair]

theorem round_trip_plain {fs : FS} {st st' : BugConf} {ck : ConfigKey}
    (hplain : ∀ stX : BugConf, getConfig fs stX ck = .ok (getRaw stX ck))
    (hsto : ∀ w, storedOf fs ck w = w)
    (hgv : getterVals fs st ck = getRaw st ck)
    (hraw : getRaw st' ck = (match dumpEntry st ck (getterVals fs st ck) with
      | some p => storedOf fs ck (some p.2)
      | none => none))
    (hnd : keyName ck ∉ st._defaults) :
    getConfig fs st' ck = getConfig fs st ck := by
  rw [hplain st', hplain st, hraw, hgv]
  rcases hv : getRaw st ck with _ | v
  · rfl
  · simp [dumpEntry, hnd, hsto]

/-- C3 (amended): round-trip holds for every store whose dump omits `build`
(`build` unset or default-origin) — with the technical well-formedness the
program itself maintains: each expanding path option set to a string,
`reduce_file` (if set) already in expanded form as its setter guarantees,
and a home directory that does not itself start with `~`.  Dumping such a
store and loading the document into a fresh store (no defaults file)
preserves every non-default option's resolved value.  (When `build` would
be dumped, the reload fails instead — see the counterexample — because the
sorted document assigns `build` before `buildpath`.) -/
theorem c3_round_trip_amended {fs : FS} {st : BugConf} {bp ep lf pf rd : String}
    (hh : startsTilde (rstripSlash fs.home) = false)
    (h1 : st._buildpath = some (.str bp)) (h2 : st._extension_path = some (.str ep))
    (h3 : st._logfn = some (.str lf)) (h4 : st._prefs = some (.str pf))
    (h5 : st._reducer = some (.str rd))
    (hrf : st._reduce_file = none ∨ ∃ s, st._reduce_file = some (.str s) ∧ expanduser fs s = s)
    (hb : st._build = none ∨ "build" ∈ st._defaults) :
    ∃ doc st', BugConf.dump fs st = .ok doc ∧
      BugConf.load fs initConf false (doc.map (fun p => (p.1, some p.2))) = .ok st' ∧
      ∀ ck, keyName ck ∉ st._defaults → getConfig fs st' ck = getConfig fs st ck := by
  have hg := getterVals_ok fs h1 h2 h3 h4 h5
  have hdoc := dump_eq_filterMap hg
  set doc := CONFIG_KEYS.filterMap (fun ck => dumpEntry st ck (getterVals fs st ck)) with hdocdef
  set doc' := doc.map (fun p => (p.1, (some p.2 : JVal))) with hdocdef'
  have hnodup : (doc.map Prod.fst).Nodup := dump_keys_nodup
  have hnodup' : (doc'.map Prod.fst).Nodup := by
    rw [hdocdef', List.map_map]
    exact hnodup
  have hdocmem : ∀ p ∈ doc, ∃ ck, parseKey p.1 = some ck ∧
      dumpEntry st ck (getterVals fs st ck) = some p := by
    intro p hp
    obtain ⟨a, ha, hfa⟩ := List.mem_filterMap.mp hp
    obtain ⟨hb1, -, -⟩ := dumpEntry_some hfa
    exact ⟨a, by rw [hb1, parseKey_keyName], hfa⟩
  have hcheck : ∀ p ∈ doc', ∃ ck, parseKey p.1 = some ck ∧ ck ≠ .build ∧
      (ck = .reduce_file → ∃ s, p.2 = some (.str s)) := by
    intro p' hp'
    obtain ⟨p, hp, rfl⟩ := List.mem_map.mp hp'
    obtain ⟨ck, hpk, hfck⟩ := hdocmem p hp
    obtain ⟨hb1, hb2, hb3⟩ := dumpEntry_some hfck
    refine ⟨ck, hpk, ?_, ?_⟩
    · rintro rfl
      have hgb : getterVals fs st ConfigKey.build = st._build := rfl
      rcases hb with hnone | hdef
      · rw [hgb, hnone] at hb2
        cases hb2
      · exact hb3 hdef
    · rintro rfl
      have hgr : getterVals fs st ConfigKey.reduce_file = st._reduce_file := rfl
      rcases hrf with hnone | ⟨s, hsome, -⟩
      · rw [hgr, hnone] at hb2
        cases hb2
      · rw [hgr, hsome] at hb2
        injection hb2 with hb2'
        exact ⟨s, congrArg some hb2'.symm⟩
  obtain ⟨st', hloadrun⟩ := loadRun_total initConf hcheck
  have hload : BugConf.load fs initConf false doc' = .ok st' := by
    rw [BugConf.load, hloadrun]
  obtain ⟨v', d'⟩ := loadRun_ok hloadrun hnodup'
  refine ⟨doc, st', hdoc, hload, ?_⟩
  have hlk : ∀ ck, lookupKey (keyName ck) doc' =
      (match dumpEntry st ck (getterVals fs st ck) with
       | some p => some (some p.2)
       | none => none) := by
    intro ck
    rw [hdocdef', lookupKey_map_pair]
    rcases hfck : dumpEntry st ck (getterVals fs st ck) with _ | p
    · have hnk : keyName ck ∉ doc.map Prod.fst := by
        intro hmm
        obtain ⟨p, hp, hp1⟩ := List.mem_map.mp hmm
        obtain ⟨a, hpa, hfa⟩ := hdocmem p hp
        rw [hp1, parseKey_keyName] at hpa
        injection hpa with hack
        rw [← hack] at hfa
        rw [hfck] at hfa
        cases hfa
      rw [lookupKey_eq_none hnk]
      rfl
    · have hp1 : p.1 = keyName ck := (dumpEntry_some hfck).1
      have hpm : p ∈ doc := List.mem_filterMap.mpr ⟨ck, mem_CONFIG_KEYS ck, hfck⟩
      have hpmem : (keyName ck, p.2) ∈ doc := by
        rw [← hp1]
        exact hpm
      rw [lookupKey_of_mem hnodup hpmem]
      rfl
  have hraw : ∀ ck, getRaw st' ck =
      (match dumpEntry st ck (getterVals fs st ck) with
       | some p => storedOf fs ck (some p.2)
       | none => none) := by
    intro ck
    have hthis := v' ck
    rw [hlk ck] at hthis
    rcases hfck : dumpEntry st ck (getterVals fs st ck) with _ | p
    · rw [hfck] at hthis
      dsimp only at hthis
      rw [hthis, getRaw_initConf]
    · rw [hfck] at hthis
      dsimp only at hthis
      exact hthis
  intro ck hnd
  cases ck
  all_goals try exact round_trip_plain (fun stX => rfl) (fun w => rfl) rfl (hraw _) hnd
  case buildpath =>
    have hgv : getterVals fs st .buildpath = some (.str (expanduser fs bp)) := by
      simp [getterVals, getConfig, h1, expandGet, Except.map]
    have hr := hraw .buildpath
    rw [hgv] at hr
    simp only [dumpEntry, if_neg hnd] at hr
    have hr' : st'._buildpath = some (.str (expanduser fs bp)) := by
      rw [show st'._buildpath = getRaw st' .buildpath from rfl, hr]
      rfl
    simp only [getConfig]
    rw [hr', h1]
    simp [expandGet, Except.map, expanduser_idem hh]
  case extension_path =>
    have hgv : getterVals fs st .extension_path = some (.str (expanduser fs ep)) := by
      simp [getterVals, getConfig, h2, expandGet, Except.map]
    have hr := hraw .extension_path
    rw [hgv] at hr
    simp only [dumpEntry, if_neg hnd] at hr
    have hr' : st'._extension_path = some (.str (expanduser fs ep)) := by
      rw [show st'._extension_path = getRaw st' .extension_path from rfl, hr]
      rfl
    simp only [getConfig]
    rw [hr', h2]
    simp [expandGet, Except.map, expanduser_idem hh]
  case logfn =>
    have hgv : getterVals fs st .logfn = some (.str (expanduser fs lf)) := by
      simp [getterVals, getConfig, h3, expandGet, Except.map]
    have hr := hraw .logfn
    rw [hgv] at hr
    simp only [dumpEntry, if_neg hnd] at hr
    have hr' : st'._logfn = some (.str (expanduser fs lf)) := by
      rw [show st'._logfn = getRaw st' .logfn from rfl, hr]
      rfl
    simp only [getConfig]
    rw [hr', h3]
    simp [expandGet, Except.map, expanduser_idem hh]
  case prefs =>
    have hgv : getterVals fs st .prefs = some (.str (expanduser fs pf)) := by
      simp [getterVals, getConfig, h4, expandGet, Except.map]
    have hr := hraw .prefs
    rw [hgv] at hr
    simp only [dumpEntry, if_neg hnd] at hr
    have hr' : st'._prefs = some (.str (expanduser fs pf)) := by
      rw [show st'._prefs = getRaw st' .prefs from rfl, hr]
      rfl
    simp only [getConfig]
    rw [hr', h4]
    simp [expandGet, Except.map, expanduser_idem hh]
  case reducer =>
    have hgv : getterVals fs st .reducer = some (.str (expanduser fs rd)) := by
      simp [getterVals, getConfig, h5, expandGet, Except.map]
    have hr := hraw .reducer
    rw [hgv] at hr
    simp only [dumpEntry, if_neg hnd] at hr
    have hr' : st'._reducer = some (.str (expanduser fs rd)) := by
      rw [show st'._reducer = getRaw st' .reducer from rfl, hr]
      rfl
    simp only [getConfig]
    rw [hr', h5]
    simp [expandGet, Except.map, expanduser_idem hh]
  case reduce_file =>
    have hgv : getterVals fs st .reduce_file = st._reduce_file := rfl
    rcases hrf with hnone | ⟨s, hsome, hexp⟩
    · show Except.ok st'._reduce_file = Except.ok st._reduce_file
      have hr := hraw .reduce_file
      rw [hgv, hnone] at hr
      dsimp only [dumpEntry] at hr
      rw [show st'._reduce_file = getRaw st' .reduce_file from rfl, hr, hnone]
    · show Except.ok st'._reduce_file = Except.ok st._reduce_file
      have hr := hraw .reduce_file
      rw [hgv, hsome] at hr
      simp only [dumpEntry, if_neg hnd] at hr
      rw [show st'._reduce_file = getRaw st' .reduce_file from rfl, hr, hsome]
      simp [storedOf, hexp]

/-- Counterexample to C3 as stated: `stF` dumps fine (its document contains
`build` and `buildpath`), but reloading that document into a fresh store
with no defaults file fails with `TypeError`: `sort_keys` puts `build`
before `buildpath`, and the `build` setter calls `list_builds`, whose
`buildpath` getter expands the still-unset backing attribute. -/
theorem c3_round_trip_counterexample :
    BugConf.dump fsW stF = .ok docF ∧
    BugConf.load fsW initConf false (docF.map (fun p => (p.1, some p.2))) =
      .error .typeError := by
  decide

/-- Witness for the amended C3 at `stG` (no build selected): the dumped
document reloads successfully and the non-default options read back equal. -/
theorem c3_round_trip_amended_witness :
    BugConf.load fsW initConf false (docG.map (fun p => (p.1, some p.2))) = .ok stG' ∧
    getConfig fsW stG' .memory = getConfig fsW stG .memory ∧
    getConfig fsW stG' .buildpath = getConfig fsW stG .buildpath := by
  obtain ⟨doc, st', hdump, hload, hvals⟩ :=
    @c3_round_trip_amended fsW stG "/b" "/e" "/l" "/p" "/r"
      (by decide) rfl rfl rfl rfl rfl (Or.inl rfl) (Or.inl rfl)
  have hconc : BugConf.dump fsW stG = .ok docG := by decide
  rw [hconc] at hdump
  injection hdump with hd
  subst hd
  have hstconc : BugConf.load fsW initConf false (docG.map (fun p => (p.1, some p.2))) =
      .ok stG' := by decide
  rw [hload] at hstconc
  injection hstconc with heq
  subst heq
  exact ⟨hload, hvals .memory (by decide), hvals .buildpath (by decide)⟩

/-! ### Reduce-argv lemmas, C6 and C7 -/

theorem minCrashesSeg_ok {st : BugConf}
    (h : st.min_crashes = none ∨ ∃ n : Int, st.min_crashes = some (.int n)) :
    minCrashesSeg st = .ok (intFlagTok "--min-crashes" st.min_crashes) := by
  rcases h with h | ⟨n, h⟩
  · simp [minCrashesSeg, h, truthy, intFlagTok]
  · by_cases hn : n = 0
    · simp [minCrashesSeg, h, hn, truthy, intFlagTok]
    · simp [minCrashesSeg, h, hn, truthy, intFlagTok, formatD, exceptOk_bind]

theorem repeatSeg_ok {st : BugConf}
    (h : st.repeatN = none ∨ ∃ n : Int, st.repeatN = some (.int n)) :
    repeatSeg st = .ok (intFlagTok "--repeat" st.repeatN) := by
  rcases h with h | ⟨n, h⟩
  · simp [repeatSeg, h, truthy, intFlagTok]
  · by_cases hn : n = 0
    · simp [repeatSeg, h, hn, truthy, intFlagTok]
    · simp [repeatSeg, h, hn, truthy, intFlagTok, formatD, exceptOk_bind]

theorem skipSeg_ok {st : BugConf}
    (h : st.skip = none ∨ ∃ n : Int, st.skip = some (.int n)) :
    skipSeg st = .ok (intFlagTok "--skip" st.skip) := by
  rcases h with h | ⟨n, h⟩
  · simp [skipSeg, h, truthy, intFlagTok]
  · by_cases hn : n = 0
    · simp [skipSeg, h, hn, truthy, intFlagTok]
    · simp [skipSeg, h, hn, truthy, intFlagTok, formatD, exceptOk_bind]

/-- Successful evaluation of `reduceCmd` as an explicit token concatenation. -/
theorem reduceCmd_ok (fs : FS) (st : BugConf) {r p bp bld : String} (tc : Value) (vb : JVal)
    (hr : st._reducer = some (.str r)) (hp : st._prefs = some (.str p))
    (hbp : st._buildpath = some (.str bp)) (hbld : st._build = some (.str bld))
    (hmc : st.min_crashes = none ∨ ∃ n : Int, st.min_crashes = some (.int n))
    (hrp : st.repeatN = none ∨ ∃ n : Int, st.repeatN = some (.int n))
    (hsk : st.skip = none ∨ ∃ n : Int, st.skip = some (.int n)) :
    reduceCmd fs st tc vb = .ok (
      [Value.str "lithium"] ++ charSeg st ++ jsSeg st ++ strategySeg st ++ symbolSeg st
      ++ reduceFileSeg st ++ [Value.str (expanduser fs r)]
      ++ [Value.str "-p", Value.str (expanduser fs p),
          Value.str (osJoin (osJoin (expanduser fs bp) bld) "firefox")]
      ++ xvfbSeg st ++ gdbSeg st ++ valgrindSeg st ++ anyCrashSeg st
      ++ intFlagTok "--min-crashes" st.min_crashes
      ++ noHarnessSeg st ++ intFlagTok "--repeat" st.repeatN ++ sigSeg st
      ++ intFlagTok "--skip" st.skip ++ verboseSeg vb ++ [tc]) := by
  rw [reduceCmd, hr, hp, hbp, hbld]
  rw [minCrashesSeg_ok hmc, repeatSeg_ok hrp, skipSeg_ok hsk]
  simp [expandGet, joinFirefox, exceptOk_bind]

/-- C6: determinism and single-boolean sensitivity of the reduce argv.
Under the conditions that make the builder succeed (reducer, prefs,
buildpath and build set; the int-valued options int or unset), (i) equal
stores, testcases and verbosity give token-for-token equal argvs, and
(ii) for each boolean option among char, js, symbol, xvfb, gdb, valgrind,
any_crash and no_harness, flipping exactly that option changes the argv
only by the presence or absence of exactly its flag, in place. -/
theorem c6_reduce_argv_determinism (fs : FS) (st : BugConf) {r p bp bld : String}
    (tc : Value) (vb : JVal)
    (hr : st._reducer = some (.str r)) (hp : st._prefs = some (.str p))
    (hbp : st._buildpath = some (.str bp)) (hbld : st._build = some (.str bld))
    (hmc : st.min_crashes = none ∨ ∃ n : Int, st.min_crashes = some (.int n))
    (hrp : st.repeatN = none ∨ ∃ n : Int, st.repeatN = some (.int n))
    (hsk : st.skip = none ∨ ∃ n : Int, st.skip = some (.int n)) :
    (∀ (st₂ : BugConf) (tc₂ : Value) (vb₂ : JVal), st = st₂ → tc = tc₂ → vb = vb₂ →
      reduceCmd fs st tc vb = reduceCmd fs st₂ tc₂ vb₂) ∧
    (∃ pre suf, ∀ b : Bool,
      reduceCmd fs {st with char := some (.bool b)} tc vb =
        .ok (pre ++ (if b then [Value.str "--char"] else []) ++ suf)) ∧
    (∃ pre suf, ∀ b : Bool,
      reduceCmd fs {st with js := some (.bool b)} tc vb =
        .ok (pre ++ (if b then [Value.str "--js"] else []) ++ suf)) ∧
    (∃ pre suf, ∀ b : Bool,
      reduceCmd fs {st with symbol := some (.bool b)} tc vb =
        .ok (pre ++ (if b then [Value.str "--symbol"] else []) ++ suf)) ∧
    (∃ pre suf, ∀ b : Bool,
      reduceCmd fs {st with xvfb := some (.bool b)} tc vb =
        .ok (pre ++ (if b then [Value.str "--xvfb"] else []) ++ suf)) ∧
    (∃ pre suf, ∀ b : Bool,
      reduceCmd fs {st with gdb := some (.bool b)} tc vb =
        .ok (pre ++ (if b then [Value.str "--gdb"] else []) ++ suf)) ∧
    (∃ pre suf, ∀ b : Bool,
      reduceCmd fs {st with valgrind := some (.bool b)} tc vb =
        .ok (pre ++ (if b then [Value.str "--valgrind"] else []) ++ suf)) ∧
    (∃ pre suf, ∀ b : Bool,
      reduceCmd fs {st with any_crash := some (.bool b)} tc vb =
        .ok (pre ++ (if b then [Value.str "--any-crash"] else []) ++ suf)) ∧
    (∃ pre suf, ∀ b : Bool,
      reduceCmd fs {st with no_harness := some (.bool b)} tc vb =
        .ok (pre ++ (if b then [Value.str "--no-harness"] else []) ++ suf)) := by
  refine ⟨fun st₂ tc₂ vb₂ h1 h2 h3 => by rw [h1, h2, h3], ?_, ?_, ?_, ?_, ?_, ?_, ?_, ?_⟩
  · refine ⟨[Value.str "lithium"],
      jsSeg st ++ strategySeg st ++ symbolSeg st ++ reduceFileSeg st
      ++ [Value.str (expanduser fs r)]
      ++ [Value.str "-p", Value.str (expanduser fs p),
          Value.str (osJoin (osJoin (expanduser fs bp) bld) "firefox")]
      ++ xvfbSeg st ++ gdbSeg st ++ valgrindSeg st ++ anyCrashSeg st
      ++ intFlagTok "--min-crashes" st.min_crashes
      ++ noHarnessSeg st ++ intFlagTok "--repeat" st.repeatN ++ sigSeg st
      ++ intFlagTok "--skip" st.skip ++ verboseSeg vb ++ [tc], fun b => ?_⟩
    rw [reduceCmd_ok fs {st with char := some (.bool b)} tc vb hr hp hbp hbld hmc hrp hsk]
    simp [charSeg, jsSeg, strategySeg, symbolSeg, reduceFileSeg, xvfbSeg, gdbSeg, valgrindSeg, anyCrashSeg, noHarnessSeg, sigSeg, verboseSeg, truthy]
  · refine ⟨[Value.str "lithium"] ++ charSeg st,
      strategySeg st ++ symbolSeg st ++ reduceFileSeg st
      ++ [Value.str (expanduser fs r)]
      ++ [Value.str "-p", Value.str (expanduser fs p),
          Value.str (osJoin (osJoin (expanduser fs bp) bld) "firefox")]
      ++ xvfbSeg st ++ gdbSeg st ++ valgrindSeg st ++ anyCrashSeg st
      ++ intFlagTok "--min-crashes" st.min_crashes
      ++ noHarnessSeg st ++ intFlagTok "--repeat" st.repeatN ++ sigSeg st
      ++ intFlagTok "--skip" st.skip ++ verboseSeg vb ++ [tc], fun b => ?_⟩
    rw [reduceCmd_ok fs {st with js := some (.bool b)} tc vb hr hp hbp hbld hmc hrp hsk]
    simp [charSeg, jsSeg, strategySeg, symbolSeg, reduceFileSeg, xvfbSeg, gdbSeg, valgrindSeg, anyCrashSeg, noHarnessSeg, sigSeg, verboseSeg, truthy]
  · refine ⟨[Value.str "lithium"] ++ charSeg st ++ jsSeg st ++ strategySeg st,
      reduceFileSeg st ++ [Value.str (expanduser fs r)]
      ++ [Value.str "-p", Value.str (expanduser fs p),
          Value.str (osJoin (osJoin (expanduser fs bp) bld) "firefox")]
      ++ xvfbSeg st ++ gdbSeg st ++ valgrindSeg st ++ anyCrashSeg st
      ++ intFlagTok "--min-crashes" st.min_crashes
      ++ noHarnessSeg st ++ intFlagTok "--repeat" st.repeatN ++ sigSeg st
      ++ intFlagTok "--skip" st.skip ++ verboseSeg vb ++ [tc], fun b => ?_⟩
    rw [reduceCmd_ok fs {st with symbol := some (.bool b)} tc vb hr hp hbp hbld hmc hrp hsk]
    simp [charSeg, jsSeg, strategySeg, symbolSeg, reduceFileSeg, xvfbSeg, gdbSeg, valgrindSeg, anyCrashSeg, noHarnessSeg, sigSeg, verboseSeg, truthy]
  · refine ⟨[Value.str "lithium"] ++ charSeg st ++ jsSeg st ++ strategySeg st ++ symbolSeg st
      ++ reduceFileSeg st ++ [Value.str (expanduser fs r)]
      ++ [Value.str "-p", Value.str (expanduser fs p),
          Value.str (osJoin (osJoin (expanduser fs bp) bld) "firefox")],
      gdbSeg st ++ valgrindSeg st ++ anyCrashSeg st
      ++ intFlagTok "--min-crashes" st.min_crashes
      ++ noHarnessSeg st ++ intFlagTok "--repeat" st.repeatN ++ sigSeg st
      ++ intFlagTok "--skip" st.skip ++ verboseSeg vb ++ [tc], fun b => ?_⟩
    rw [reduceCmd_ok fs {st with xvfb := some (.bool b)} tc vb hr hp hbp hbld hmc hrp hsk]
    simp [charSeg, jsSeg, strategySeg, symbolSeg, reduceFileSeg, xvfbSeg, gdbSeg, valgrindSeg, anyCrashSeg, noHarnessSeg, sigSeg, verboseSeg, truthy]
  · refine ⟨[Value.str "lithium"] ++ charSeg st ++ jsSeg st ++ strategySeg st ++ symbolSeg st
      ++ reduceFileSeg st ++ [Value.str (expanduser fs r)]
      ++ [Value.str "-p", Value.str (expanduser fs p),
          Value.str (osJoin (osJoin (expanduser fs bp) bld) "firefox")]
      ++ xvfbSeg st,
      valgrindSeg st ++ anyCrashSeg st
      ++ intFlagTok "--min-crashes" st.min_crashes
      ++ noHarnessSeg st ++ intFlagTok "--repeat" st.repeatN ++ sigSeg st
      ++ intFlagTok "--skip" st.skip ++ verboseSeg vb ++ [tc], fun b => ?_⟩
    rw [reduceCmd_ok fs {st with gdb := some (.bool b)} tc vb hr hp hbp hbld hmc hrp hsk]
    simp [charSeg, jsSeg, strategySeg, symbolSeg, reduceFileSeg, xvfbSeg, gdbSeg, valgrindSeg, anyCrashSeg, noHarnessSeg, sigSeg, verboseSeg, truthy]
  · refine ⟨[Value.str "lithium"] ++ charSeg st ++ jsSeg st ++ strategySeg st ++ symbolSeg st
      ++ reduceFileSeg st ++ [Value.str (expanduser fs r)]
      ++ [Value.str "-p", Value.str (expanduser fs p),
          Value.str (osJoin (osJoin (expanduser fs bp) bld) "firefox")]
      ++ xvfbSeg st ++ gdbSeg st,
      anyCrashSeg st ++ intFlagTok "--min-crashes" st.min_crashes
      ++ noHarnessSeg st ++ intFlagTok "--repeat" st.repeatN ++ sigSeg st
      ++ intFlagTok "--skip" st.skip ++ verboseSeg vb ++ [tc], fun b => ?_⟩
    rw [reduceCmd_ok fs {st with valgrind := some (.bool b)} tc vb hr hp hbp hbld hmc hrp hsk]
    simp [charSeg, jsSeg, strategySeg, symbolSeg, reduceFileSeg, xvfbSeg, gdbSeg, valgrindSeg, anyCrashSeg, noHarnessSeg, sigSeg, verboseSeg, truthy]
  · refine ⟨[Value.str "lithium"] ++ charSeg st ++ jsSeg st ++ strategySeg st ++ symbolSeg st
      ++ reduceFileSeg st ++ [Value.str (expanduser fs r)]
      ++ [Value.str "-p", Value.str (expanduser fs p),
          Value.str (osJoin (osJoin (expanduser fs bp) bld) "firefox")]
      ++ xvfbSeg st ++ gdbSeg st ++ valgrindSeg st,
      intFlagTok "--min-crashes" st.min_crashes
      ++ noHarnessSeg st ++ intFlagTok "--repeat" st.repeatN ++ sigSeg st
      ++ intFlagTok "--skip" st.skip ++ verboseSeg vb ++ [tc], fun b => ?_⟩
    rw [reduceCmd_ok fs {st with any_crash := some (.bool b)} tc vb hr hp hbp hbld hmc hrp hsk]
    simp [charSeg, jsSeg, strategySeg, symbolSeg, reduceFileSeg, xvfbSeg, gdbSeg, valgrindSeg, anyCrashSeg, noHarnessSeg, sigSeg, verboseSeg, truthy]
  · refine ⟨[Value.str "lithium"] ++ charSeg st ++ jsSeg st ++ strategySeg st ++ symbolSeg st
      ++ reduceFileSeg st ++ [Value.str (expanduser fs r)]
      ++ [Value.str "-p", Value.str (expanduser fs p),
          Value.str (osJoin (osJoin (expanduser fs bp) bld) "firefox")]
      ++ xvfbSeg st ++ gdbSeg st ++ valgrindSeg st ++ anyCrashSeg st
      ++ intFlagTok "--min-crashes" st.min_crashes,
      intFlagTok "--repeat" st.repeatN ++ sigSeg st
      ++ intFlagTok "--skip" st.skip ++ verboseSeg vb ++ [tc], fun b => ?_⟩
    rw [reduceCmd_ok fs {st with no_harness := some (.bool b)} tc vb hr hp hbp hbld hmc hrp hsk]
    simp [charSeg, jsSeg, strategySeg, symbolSeg, reduceFileSeg, xvfbSeg, gdbSeg, valgrindSeg, anyCrashSeg, noHarnessSeg, sigSeg, verboseSeg, truthy]

/-- Witness for C6: flipping `char` on a concrete reduce-ready store
changes the argv (the flag really is inserted). -/
theorem c6_reduce_argv_determinism_witness :
    reduceCmd fsW {stR with char := some (.bool true)} (.str "t") none ≠
      reduceCmd fsW {stR with char := some (.bool false)} (.str "t") none := by
  obtain ⟨-, ⟨pre, suf, hb⟩, -⟩ :=
    c6_reduce_argv_determinism fsW stR (.str "t") none rfl rfl rfl rfl
      (Or.inl rfl) (Or.inl rfl) (Or.inl rfl)
  rw [hb true, hb false]
  intro hcc
  injection hcc with hl
  have hlen := congrArg List.length hl
  simp at hlen

theorem truthy_int (n : Int) : truthy (some (.int n)) = (n != 0) := rfl

theorem truthy_none : truthy none = false := rfl

/-- C7 (amended): value-option emission policy of the command builders.
For `min_crashes`, `repeat` and `skip` the reduce builder appends
`[flag, "%d" % n]` iff the value is a non-zero int (zero and `None` are
omitted); for `sig` it appends `["--sig", s]` iff the string is non-empty;
but for `strategy` and `reduce_file` the check is `is not None` only: a set
value is always appended, the empty string included.  For `memory`, the
repro builder passes `memory_limit = memory * 1024 * 1024` iff the value is
a non-zero int. -/
theorem c7_value_flag_policy (fs : FS) (st : BugConf) {r p bp bld : String}
    (tc : Value) (vb : JVal)
    (hr : st._reducer = some (.str r)) (hp : st._prefs = some (.str p))
    (hbp : st._buildpath = some (.str bp)) (hbld : st._build = some (.str bld))
    (hmc : st.min_crashes = none ∨ ∃ n : Int, st.min_crashes = some (.int n))
    (hrp : st.repeatN = none ∨ ∃ n : Int, st.repeatN = some (.int n))
    (hsk : st.skip = none ∨ ∃ n : Int, st.skip = some (.int n))
    (hext : truthy st.extension = false) :
    (∃ pre suf, (∀ n : Int,
        reduceCmd fs {st with min_crashes := some (.int n)} tc vb =
          .ok (pre ++ (if n != 0 then [Value.str "--min-crashes", Value.str (toString n)] else [])
            ++ suf)) ∧
      reduceCmd fs {st with min_crashes := none} tc vb = .ok (pre ++ suf)) ∧
    (∃ pre suf, (∀ n : Int,
        reduceCmd fs {st with repeatN := some (.int n)} tc vb =
          .ok (pre ++ (if n != 0 then [Value.str "--repeat", Value.str (toString n)] else [])
            ++ suf)) ∧
      reduceCmd fs {st with repeatN := none} tc vb = .ok (pre ++ suf)) ∧
    (∃ pre suf, (∀ n : Int,
        reduceCmd fs {st with skip := some (.int n)} tc vb =
          .ok (pre ++ (if n != 0 then [Value.str "--skip", Value.str (toString n)] else [])
            ++ suf)) ∧
      reduceCmd fs {st with skip := none} tc vb = .ok (pre ++ suf)) ∧
    (∃ pre suf, (∀ s : String,
        reduceCmd fs {st with sig := some (.str s)} tc vb =
          .ok (pre ++ (if s != "" then [Value.str "--sig", Value.str s] else []) ++ suf)) ∧
      reduceCmd fs {st with sig := none} tc vb = .ok (pre ++ suf)) ∧
    (∃ pre suf, (∀ s : String,
        reduceCmd fs {st with strategy := some (.str s)} tc vb =
          .ok (pre ++ [Value.str "--strategy", Value.str s] ++ suf)) ∧
      reduceCmd fs {st with strategy := none} tc vb = .ok (pre ++ suf)) ∧
    (∃ pre suf, (∀ s : String,
        reduceCmd fs {st with _reduce_file := some (.str s)} tc vb =
          .ok (pre ++ [Value.str "--testcase", Value.str s] ++ suf)) ∧
      reduceCmd fs {st with _reduce_file := none} tc vb = .ok (pre ++ suf)) ∧
    (∃ pre, (∀ n : Int,
        reproKwds fs {st with memory := some (.int n)} tc =
          .ok (pre ++ (if n != 0 then [("memory_limit", Value.int (n * 1048576))] else []))) ∧
      reproKwds fs {st with memory := none} tc = .ok pre) := by
  refine ⟨?_, ?_, ?_, ?_, ?_, ?_, ?_⟩
  · refine ⟨[Value.str "lithium"] ++ charSeg st ++ jsSeg st ++ strategySeg st ++ symbolSeg st
      ++ reduceFileSeg st ++ [Value.str (expanduser fs r)]
      ++ [Value.str "-p", Value.str (expanduser fs p),
          Value.str (osJoin (osJoin (expanduser fs bp) bld) "firefox")]
      ++ xvfbSeg st ++ gdbSeg st ++ valgrindSeg st ++ anyCrashSeg st,
      noHarnessSeg st ++ intFlagTok "--repeat" st.repeatN ++ sigSeg st
      ++ intFlagTok "--skip" st.skip ++ verboseSeg vb ++ [tc], fun n => ?_, ?_⟩
    · rw [reduceCmd_ok fs {st with min_crashes := some (.int n)} tc vb hr hp hbp hbld
        (Or.inr ⟨n, rfl⟩) hrp hsk]
      simp [charSeg, jsSeg, strategySeg, symbolSeg, reduceFileSeg, xvfbSeg, gdbSeg,
        valgrindSeg, anyCrashSeg, noHarnessSeg, sigSeg, verboseSeg, truthy, intFlagTok]
    · rw [reduceCmd_ok fs {st with min_crashes := none} tc vb hr hp hbp hbld
        (Or.inl rfl) hrp hsk]
      simp [charSeg, jsSeg, strategySeg, symbolSeg, reduceFileSeg, xvfbSeg, gdbSeg,
        valgrindSeg, anyCrashSeg, noHarnessSeg, sigSeg, verboseSeg, truthy, intFlagTok]
  · refine ⟨[Value.str "lithium"] ++ charSeg st ++ jsSeg st ++ strategySeg st ++ symbolSeg st
      ++ reduceFileSeg st ++ [Value.str (expanduser fs r)]
      ++ [Value.str "-p", Value.str (expanduser fs p),
          Value.str (osJoin (osJoin (expanduser fs bp) bld) "firefox")]
      ++ xvfbSeg st ++ gdbSeg st ++ valgrindSeg st ++ anyCrashSeg st
      ++ intFlagTok "--min-crashes" st.min_crashes ++ noHarnessSeg st,
      sigSeg st ++ intFlagTok "--skip" st.skip ++ verboseSeg vb ++ [tc], fun n => ?_, ?_⟩
    · rw [reduceCmd_ok fs {st with repeatN := some (.int n)} tc vb hr hp hbp hbld
        hmc (Or.inr ⟨n, rfl⟩) hsk]
      simp [charSeg, jsSeg, strategySeg, symbolSeg, reduceFileSeg, xvfbSeg, gdbSeg,
        valgrindSeg, anyCrashSeg, noHarnessSeg, sigSeg, verboseSeg, truthy, intFlagTok]
    · rw [reduceCmd_ok fs {st with repeatN := none} tc vb hr hp hbp hbld
        hmc (Or.inl rfl) hsk]
      simp [charSeg, jsSeg, strategySeg, symbolSeg, reduceFileSeg, xvfbSeg, gdbSeg,
        valgrindSeg, anyCrashSeg, noHarnessSeg, sigSeg, verboseSeg, truthy, intFlagTok]
  · refine ⟨[Value.str "lithium"] ++ charSeg st ++ jsSeg st ++ strategySeg st ++ symbolSeg st
      ++ reduceFileSeg st ++ [Value.str (expanduser fs r)]
      ++ [Value.str "-p", Value.str (expanduser fs p),
          Value.str (osJoin (osJoin (expanduser fs bp) bld) "firefox")]
      ++ xvfbSeg st ++ gdbSeg st ++ valgrindSeg st ++ anyCrashSeg st
      ++ intFlagTok "--min-crashes" st.min_crashes ++ noHarnessSeg st
      ++ intFlagTok "--repeat" st.repeatN ++ sigSeg st,
      verboseSeg vb ++ [tc], fun n => ?_, ?_⟩
    · rw [reduceCmd_ok fs {st with skip := some (.int n)} tc vb hr hp hbp hbld
        hmc hrp (Or.inr ⟨n, rfl⟩)]
      simp [charSeg, jsSeg, strategySeg, symbolSeg, reduceFileSeg, xvfbSeg, gdbSeg,
        valgrindSeg, anyCrashSeg, noHarnessSeg, sigSeg, verboseSeg, truthy, intFlagTok]
    · rw [reduceCmd_ok fs {st with skip := none} tc vb hr hp hbp hbld
        hmc hrp (Or.inl rfl)]
      simp [charSeg, jsSeg, strategySeg, symbolSeg, reduceFileSeg, xvfbSeg, gdbSeg,
        valgrindSeg, anyCrashSeg, noHarnessSeg, sigSeg, verboseSeg, truthy, intFlagTok]
  · refine ⟨[Value.str "lithium"] ++ charSeg st ++ jsSeg st ++ strategySeg st ++ symbolSeg st
      ++ reduceFileSeg st ++ [Value.str (expanduser fs r)]
      ++ [Value.str "-p", Value.str (expanduser fs p),
          Value.str (osJoin (osJoin (expanduser fs bp) bld) "firefox")]
      ++ xvfbSeg st ++ gdbSeg st ++ valgrindSeg st ++ anyCrashSeg st
      ++ intFlagTok "--min-crashes" st.min_crashes ++ noHarnessSeg st
      ++ intFlagTok "--repeat" st.repeatN,
      intFlagTok "--skip" st.skip ++ verboseSeg vb ++ [tc], fun s => ?_, ?_⟩
    · rw [reduceCmd_ok fs {st with sig := some (.str s)} tc vb hr hp hbp hbld hmc hrp hsk]
      simp [charSeg, jsSeg, strategySeg, symbolSeg, reduceFileSeg, xvfbSeg, gdbSeg,
        valgrindSeg, anyCrashSeg, noHarnessSeg, sigSeg, verboseSeg, truthy, intFlagTok]
    · rw [reduceCmd_ok fs {st with sig := none} tc vb hr hp hbp hbld hmc hrp hsk]
      simp [charSeg, jsSeg, strategySeg, symbolSeg, reduceFileSeg, xvfbSeg, gdbSeg,
        valgrindSeg, anyCrashSeg, noHarnessSeg, sigSeg, verboseSeg, truthy, intFlagTok]
  · refine ⟨[Value.str "lithium"] ++ charSeg st ++ jsSeg st,
      symbolSeg st ++ reduceFileSeg st ++ [Value.str (expanduser fs r)]
      ++ [Value.str "-p", Value.str (expanduser fs p),
          Value.str (osJoin (osJoin (expanduser fs bp) bld) "firefox")]
      ++ xvfbSeg st ++ gdbSeg st ++ valgrindSeg st ++ anyCrashSeg st
      ++ intFlagTok "--min-crashes" st.min_crashes ++ noHarnessSeg st
      ++ intFlagTok "--repeat" st.repeatN ++ sigSeg st
      ++ intFlagTok "--skip" st.skip ++ verboseSeg vb ++ [tc], fun s => ?_, ?_⟩
    · rw [reduceCmd_ok fs {st with strategy := some (.str s)} tc vb hr hp hbp hbld hmc hrp hsk]
      simp [charSeg, jsSeg, strategySeg, symbolSeg, reduceFileSeg, xvfbSeg, gdbSeg,
        valgrindSeg, anyCrashSeg, noHarnessSeg, sigSeg, verboseSeg, truthy, intFlagTok]
    · rw [reduceCmd_ok fs {st with strategy := none} tc vb hr hp hbp hbld hmc hrp hsk]
      simp [charSeg, jsSeg, strategySeg, symbolSeg, reduceFileSeg, xvfbSeg, gdbSeg,
        valgrindSeg, anyCrashSeg, noHarnessSeg, sigSeg, verboseSeg, truthy, intFlagTok]
  · refine ⟨[Value.str "lithium"] ++ charSeg st ++ jsSeg st ++ strategySeg st ++ symbolSeg st,
      [Value.str (expanduser fs r)]
      ++ [Value.str "-p", Value.str (expanduser fs p),
          Value.str (osJoin (osJoin (expanduser fs bp) bld) "firefox")]
      ++ xvfbSeg st ++ gdbSeg st ++ valgrindSeg st ++ anyCrashSeg st
      ++ intFlagTok "--min-crashes" st.min_crashes ++ noHarnessSeg st
      ++ intFlagTok "--repeat" st.repeatN ++ sigSeg st
      ++ intFlagTok "--skip" st.skip ++ verboseSeg vb ++ [tc], fun s => ?_, ?_⟩
    · rw [reduceCmd_ok fs {st with _reduce_file := some (.str s)} tc vb hr hp hbp hbld
        hmc hrp hsk]
      simp [charSeg, jsSeg, strategySeg, symbolSeg, reduceFileSeg, xvfbSeg, gdbSeg,
        valgrindSeg, anyCrashSeg, noHarnessSeg, sigSeg, verboseSeg, truthy, intFlagTok]
    · rw [reduceCmd_ok fs {st with _reduce_file := none} tc vb hr hp hbp hbld hmc hrp hsk]
      simp [charSeg, jsSeg, strategySeg, symbolSeg, reduceFileSeg, xvfbSeg, gdbSeg,
        valgrindSeg, anyCrashSeg, noHarnessSeg, sigSeg, verboseSeg, truthy, intFlagTok]
  · refine ⟨[("prefs_js", Value.str (expanduser fs p)), ("location", tc)]
      ++ (if truthy st.safemode then [("safe_mode", Value.bool true)] else []),
      fun n => ?_, ?_⟩
    · simp [reproKwds, hp, expandGet, exceptOk_bind, hext, pyMulMB, truthy_int]
    · simp [reproKwds, hp, expandGet, exceptOk_bind, hext, pyMulMB, truthy_none]

/-- Counterexample to C7 as stated: with `strategy` set to the empty string
(null-ness check only in the source), the builder still appends
`--strategy ""` instead of omitting it. -/
theorem c7_value_flag_policy_counterexample :
    stR.strategy = some (.str "") ∧
    reduceCmd fsW stR (.str "t") none =
      .ok [.str "lithium", .str "--strategy", .str "", .str "/r", .str "-p", .str "/p",
           .str "/b/a-build/firefox", .str "t"] ∧
    Value.str "--strategy" ∈
      [Value.str "lithium", .str "--strategy", .str "", .str "/r", .str "-p", .str "/p",
       .str "/b/a-build/firefox", .str "t"] := by
  decide

/-- Witness for the amended C7: setting `strategy` to the empty string
produces a different argv than leaving it unset. -/
theorem c7_value_flag_policy_witness :
    reduceCmd fsW {stR with strategy := some (.str "")} (.str "t") none ≠
      reduceCmd fsW {stR with strategy := none} (.str "t") none := by
  obtain ⟨-, -, -, -, ⟨pre, suf, hs, hnone⟩, -⟩ :=
    c7_value_flag_policy fsW stR (.str "t") none rfl rfl rfl rfl
      (Or.inl rfl) (Or.inl rfl) (Or.inl rfl) rfl
  rw [hs "", hnone]
  intro hcc
  injection hcc with hl
  have hlen := congrArg List.length hl
  simp at hlen
  omega

/-! ### CLI surface: C9 -/

/-- Counterexample to C9 as stated: `--verbose` is generated with
`store_true`, not a counting action, and a second repetition does not raise
the effective log level beyond the first (`DEBUG` either way). -/
theorem c9_verbose_counting_counterexample :
    (parse_args_specs "bcreduce").filter (fun a => a.names.contains "--verbose") =
      [{ names := ["--verbose", "-v"], action := .storeTrue, typ := none, positional := false }] ∧
    ArgAction.storeTrue ≠ ArgAction.count ∧
    mainLogLevel (actionResult .storeTrue 2) = mainLogLevel (actionResult .storeTrue 1) := by
  decide

/-- C9 (amended): the generated parser has `--verbose`/`-v` and
`--write`/`-w` as `store_true` presence flags (not counting flags), plus a
positional `testcase` argument exactly for the `bcrepro` and `bcreduce`
commands; any positive number of `--verbose` repetitions yields the same
effective log level DEBUG (10), absence leaves INFO (20). -/
theorem c9_cli_surface_amended (cmd : String) :
    ((parse_args_specs cmd).filter (fun a => a.names.contains "--verbose") =
      [{ names := ["--verbose", "-v"], action := .storeTrue, typ := none, positional := false }]) ∧
    ((parse_args_specs cmd).filter (fun a => a.names.contains "--write") =
      [{ names := ["--write", "-w"], action := .storeTrue, typ := none, positional := false }]) ∧
    ((parse_args_specs cmd).filter (fun a => a.positional) =
      (if cmd = "bcrepro" ∨ cmd = "bcreduce" then
        [{ names := ["testcase"], action := .store, typ := none, positional := true }]
      else [])) ∧
    (∀ n : Nat, 0 < n → mainLogLevel (actionResult .storeTrue n) = 10) ∧
    (mainLogLevel (actionResult .storeTrue 0) = 20) := by
  refine ⟨?_, ?_, ?_, fun n hn => ?_, by decide⟩
  · by_cases hc : cmd = "bcrepro" ∨ cmd = "bcreduce"
    · simp only [parse_args_specs, if_pos hc]
      decide
    · simp only [parse_args_specs, if_neg hc]
      decide
  · by_cases hc : cmd = "bcrepro" ∨ cmd = "bcreduce"
    · simp only [parse_args_specs, if_pos hc]
      decide
    · simp only [parse_args_specs, if_neg hc]
      decide
  · by_cases hc : cmd = "bcrepro" ∨ cmd = "bcreduce"
    · simp only [parse_args_specs, if_pos hc]
      decide
    · simp only [parse_args_specs, if_neg hc]
      decide
  · simp [actionResult, mainLogLevel, truthy, hn]

/-- Witness for the amended C9 at `bcreduce` and two `-v` repetitions. -/
theorem c9_cli_surface_amended_witness :
    mainLogLevel (actionResult .storeTrue 2) = 10 ∧
    (parse_args_specs "bcreduce").filter (fun a => a.positional) =
      [{ names := ["testcase"], action := .store, typ := none, positional := true }] := by
  obtain ⟨h1, h2, h3, h4, h5⟩ := c9_cli_surface_amended "bcreduce"
  refine ⟨h4 2 (by decide), ?_⟩
  rw [h3]
  decide
